import Mathlib

/-!
# Verification of the Personalized Video Feed API core

A shallow embedding of the request-path core of the feed service
(`app/services/ranking.py`, `app/services/feed.py`,
`app/core/circuit_breaker.py`, `app/core/cache.py`,
`app/api/routers/feed.py`) together with theorems settling the frozen
specification claims.

Modelling conventions:
* Python `float` values (scores, times, weights) are modelled by `ℚ`;
  all the claims under scrutiny are about comparisons, ordering, and
  data flow, never about binary floating-point rounding.
* `time.time()` is modelled by an explicit `now : ℚ` parameter that is
  fixed for the duration of one request.
* Python `dict` values are modelled by association lists with
  last-binding-wins update (`upsert`), which preserves key uniqueness
  and insertion order exactly as CPython dictionaries do.
* Fallible Python code (code that can raise) returns `Except` / `Option`.
-/

namespace FeedApi

/-! ## Domain model (`app/models/schemas.py`) -/

/-- Embedding of `VideoMetadata` (schemas.py): a candidate video. -/
structure VideoMetadata where
  id : String
  title : String
  score : ℚ
  tags : List String
  maturity_rating : String
  published_at : ℚ
deriving DecidableEq

/-- Embedding of `UserSignals` (schemas.py). `affinities` is a Python
dict tag → float, modelled as an association list. -/
structure UserSignals where
  user_hash : String
  watched_ids : List String := []
  affinities : List (String × ℚ) := []
deriving DecidableEq

/-- Embedding of `TenantRankingRules` (schemas.py).  The `filters`
field is a Python `Dict[str, Any]`; the ranking engine only ever reads
`filters.get("exclude_tags", [])` and `filters.get("max_maturity")`,
so those two projections are carried explicitly. -/
structure TenantRankingRules where
  tenant_id : String
  boost_weights : List (String × ℚ) :=
    [("recency", 1), ("popularity", 1), ("user_affinity", 1)]
  filters_exclude_tags : List String := []
  filters_max_maturity : Option String := none
  editorial_boosts : List (String × Int) := []
deriving DecidableEq

/-- Embedding of `ScoredVideo` (schemas.py). -/
structure ScoredVideo where
  video : VideoMetadata
  final_score : ℚ
  score_breakdown : List (String × ℚ) := []
deriving DecidableEq

/-- Embedding of `FeedItem` (schemas.py). -/
structure FeedItem where
  id : String
  title : String
  playback_url : String
  tracking_token : String
  debug_score : Option ℚ := none
deriving DecidableEq

/-- Embedding of `FeedResponse` (schemas.py). -/
structure FeedResponse where
  items : List FeedItem
  next_cursor : Option String := none
  has_more : Bool
  degraded : Bool := false
  is_personalized : Bool := true
deriving DecidableEq

/-! ## Kernel-reducible rational arithmetic

The embedding models Python floats as `ℚ`.  Core `Rat.add`/`mul`/… are
`@[irreducible]`, which would block evaluating witnesses by `decide`,
so the embedding uses these equivalent `mkRat`-based operations; the
`…_eq` bridge lemmas prove each one equal to the standard operation. -/

def qadd (a b : ℚ) : ℚ :=
  mkRat (a.num * b.den + b.num * a.den) (a.den * b.den)

def qneg (a : ℚ) : ℚ := mkRat (-a.num) a.den

def qsub (a b : ℚ) : ℚ := qadd a (qneg b)

def qmul (a b : ℚ) : ℚ := mkRat (a.num * b.num) (a.den * b.den)

def qinv (a : ℚ) : ℚ := Rat.divInt a.den a.num

def qdiv (a b : ℚ) : ℚ := qmul a (qinv b)

def qmax (a b : ℚ) : ℚ := if a < b then b else a

def qfloor (a : ℚ) : Int := a.num / a.den

/-! ## Python helpers -/

/-- `d.get(k, default)` on a string-keyed dict modelled as an
association list. -/
def dictGetD (l : List (String × ℚ)) (k : String) (d : ℚ) : ℚ :=
  match l.lookup k with
  | some v => v
  | none => d

/-- Python list slice `l[i:j]` (step 1): negative indices count from
the end, and both bounds are clamped into `[0, len l]`. -/
def pySlice (l : List α) (i j : Int) : List α :=
  let n : Int := l.length
  let i' : Int := if i < 0 then max 0 (n + i) else min i n
  let j' : Int := if j < 0 then max 0 (n + j) else min j n
  (l.drop i'.toNat).take (j'.toNat - i'.toNat)

/-- Python `list.insert(i, a)`: a negative index counts from the end
and is clamped at 0; an index past the end appends. -/
def pyInsert (l : List α) (i : Int) (a : α) : List α :=
  let n : Int := l.length
  let i' : Int := if i < 0 then max 0 (n + i) else min i n
  l.insertIdx i'.toNat a

/-- Round half-to-even to two decimal places; models `round(x, 2)`
(up to binary-float representation, which no claim depends on). -/
def roundPy2 (q : ℚ) : ℚ :=
  let x : ℚ := qmul q 100
  let f : Int := qfloor x
  let r : ℚ := qsub x (mkRat f 1)
  let n : Int :=
    if r < mkRat 1 2 then f
    else if mkRat 1 2 < r then f + 1
    else if f % 2 = 0 then f else f + 1
  qdiv (mkRat n 1) 100

/-! ## Stable sorting

CPython's `list.sort` is a stable sort.  A stable sort with respect to
a total preorder is uniquely determined by its input, so any stable
sorting algorithm is an exact model; we use insertion sort because it
is structurally recursive (and hence kernel-reducible).  Its three
characterising properties — it permutes the input, its output is
sorted, and elements that compare equal keep their input order — are
proved below. -/

/-- Insert `a` into `l` before the first element `b` with `le a b`;
elements equivalent to `a` that are already in `l` stay in front of
`a`, which is exactly stable-sort placement for an element arriving
later in the input. -/
def insertLe (le : α → α → Bool) (a : α) : List α → List α
  | [] => [a]
  | b :: bs => if le a b then a :: b :: bs else b :: insertLe le a bs

/-- Stable sort modelling CPython `list.sort` with comparison `le`. -/
def sortStable (le : α → α → Bool) : List α → List α
  | [] => []
  | a :: l => insertLe le a (sortStable le l)

/-! ## Ranking engine (`app/services/ranking.py`) -/

/-- The maturity ladder from `RankingEngine._is_maturity_allowed`. -/
def ratingsLadder : List String := ["G", "PG", "PG-13", "R", "NC-17"]

/-- `ratings.index(r)`; `none` models the `ValueError`. -/
def ratingIndex (r : String) : Option Nat :=
  ratingsLadder.findIdx? (· = r)

/-- Embedding of `RankingEngine._is_maturity_allowed`: unknown video
or cap ratings (a `ValueError` from `.index`) are allowed. -/
def isMaturityAllowed (video_rating max_rating : String) : Bool :=
  match ratingIndex video_rating, ratingIndex max_rating with
  | some vi, some mi => vi ≤ mi
  | _, _ => true

/-- Embedding of `RankingEngine._filter_candidates`.  The
`if max_maturity and ...` truthiness test skips the maturity filter
when `max_maturity` is `None` or the empty string. -/
def filterCandidates (candidates : List VideoMetadata)
    (user : UserSignals) (config : TenantRankingRules) :
    List VideoMetadata :=
  candidates.filter fun video =>
    !(user.watched_ids.contains video.id) &&
    !(video.tags.any (config.filters_exclude_tags.contains ·)) &&
    (match config.filters_max_maturity with
     | some m =>
         if m = "" then true
         else isMaturityAllowed video.maturity_rating m
     | none => true)

/-- Embedding of `RecencyScoring.calculate_boost` (DECAY_HOURS = 48). -/
def recencyBoost (now : ℚ) (video : VideoMetadata)
    (config : TenantRankingRules) : ℚ :=
  let age_hours : ℚ := qmax 0 (qdiv (qsub now video.published_at) 3600)
  if 48 ≤ age_hours then 0
  else qmul (dictGetD config.boost_weights "recency" 1)
    (qsub 1 (qdiv age_hours 48))

/-- Embedding of `AffinityScoring.calculate_boost`. -/
def affinityBoost (video : VideoMetadata) (user : UserSignals)
    (config : TenantRankingRules) : ℚ :=
  let maxAff : ℚ :=
    video.tags.foldl (fun acc tag => qmax acc (dictGetD user.affinities tag 0)) 0
  qmul (dictGetD config.boost_weights "user_affinity" 1) maxAff

/-- Embedding of `RankingEngine._score_candidates` with the default
strategy list `[RecencyScoring, AffinityScoring]` and the popularity
multiplier. -/
def scoreCandidates (now : ℚ) (candidates : List VideoMetadata)
    (user : UserSignals) (config : TenantRankingRules) :
    List ScoredVideo :=
  let popW := dictGetD config.boost_weights "popularity" 1
  candidates.map fun video =>
    let base := qmul video.score popW
    let recB := recencyBoost now video config
    let affB := affinityBoost video user config
    let totalBoost := qadd recB affB
    let finalScore := qmul base (qadd 1 totalBoost)
    { video := video
      final_score := finalScore
      score_breakdown :=
        [("base", base), ("recency", recB), ("affinity", affB),
         ("total_boost", totalBoost), ("final", finalScore)] }

/-- The comparison realised by
`scored.sort(key=lambda x: x.final_score, reverse=True)`:
stable descending order on `final_score`. -/
def scoreLe (x y : ScoredVideo) : Bool := y.final_score ≤ x.final_score

/-- Step 3 of `RankingEngine.rank`: CPython's stable sort, descending
on `final_score`. -/
def sortScored (scored : List ScoredVideo) : List ScoredVideo :=
  sortStable scoreLe scored

/-- `d[k] = v` on a dict: replace in place if the key exists (CPython
dicts keep the original insertion slot), else append. -/
def upsert [DecidableEq κ] (k : κ) (v : α) :
    List (κ × α) → List (κ × α)
  | [] => [(k, v)]
  | (k', v') :: rest =>
      if k = k' then (k, v) :: rest else (k', v') :: upsert k v rest

/-- Embedding of `RankingEngine._apply_editorial_boosts`.  Boosted
items are collected in a position-keyed dict (`upsert`: a later item
with the same position overwrites an earlier one), the dict is
iterated in ascending key order, and each item is inserted at
`min(position, len(result))`. -/
def applyEditorialBoosts (scored : List ScoredVideo)
    (config : TenantRankingRules) : List ScoredVideo :=
  if config.editorial_boosts = [] then scored
  else
    let split := scored.foldl
      (fun (acc : List (Int × ScoredVideo) × List ScoredVideo) item =>
        match config.editorial_boosts.lookup item.video.id with
        | some position => (upsert position item acc.1, acc.2)
        | none => (acc.1, acc.2 ++ [item]))
      ([], [])
    let sortedBoosted := sortStable (fun a b => a.1 ≤ b.1) split.1
    sortedBoosted.foldl
      (fun result pv =>
        pyInsert result (min pv.1 (result.length : Int)) pv.2)
      split.2

/-- Embedding of `RankingEngine._to_feed_items`; `int(time.time())`
is `⌊now⌋` (request times are non-negative, so truncation is floor). -/
def toFeedItems (now : ℚ) (scored : List ScoredVideo) : List FeedItem :=
  scored.map fun sv =>
    { id := sv.video.id
      title := sv.video.title
      playback_url := "https://cdn.example.com/v/" ++ sv.video.id ++ ".m3u8"
      tracking_token := "tok_" ++ sv.video.id ++ "_" ++ toString (qfloor now)
      debug_score := some (roundPy2 sv.final_score) }

/-- Steps 2–4 of `RankingEngine.rank`: filter, score, sort, editorial
overrides — the full pre-pagination sequence. -/
def rankPipeline (now : ℚ) (candidates : List VideoMetadata)
    (user : UserSignals) (config : TenantRankingRules) :
    List ScoredVideo :=
  applyEditorialBoosts
    (sortScored (scoreCandidates now (filterCandidates candidates user config) user config))
    config

/-! ## Cursor encoding (`_encode_cursor`)

`_encode_cursor` computes
`base64.b64encode(json.dumps({"offset": offset}).encode("utf-8"))`.
We embed each stage: decimal integer printing (CPython `str(int)`),
the exact `json.dumps` output for a one-key dict, UTF-8 encoding, and
standard base64 with padding. -/

/-- Most-significant-first decimal digits of `n`; the fuel argument
(`n+1` suffices, each step divides by 10) keeps the recursion
structural so it is kernel-reducible. -/
def natReprAux : Nat → Nat → List Char
  | 0, _ => []
  | fuel + 1, n =>
      if n < 10 then [Char.ofNat (48 + n)]
      else natReprAux fuel (n / 10) ++ [Char.ofNat (48 + n % 10)]

/-- Decimal representation of a natural number (CPython `str`). -/
def natReprChars (n : Nat) : List Char := natReprAux (n + 1) n

/-- Decimal representation of an integer (CPython `str(int)`). -/
def intReprChars (o : Int) : List Char :=
  if o < 0 then '-' :: natReprChars (-o).toNat else natReprChars o.toNat

/-- The exact text `json.dumps({"offset": o})` produces:
`{"offset": <digits>}` (default separators, one key). -/
def jsonDumpsOffset (o : Int) : List Char :=
  "\x7b\"offset\": ".data ++ intReprChars o ++ "\x7d".data

/-- UTF-8 encoding of one Unicode scalar value. -/
def utf8EncodeChar (c : Nat) : List Nat :=
  if c < 0x80 then [c]
  else if c < 0x800 then [0xC0 + c / 64, 0x80 + c % 64]
  else if c < 0x10000 then
    [0xE0 + c / 4096, 0x80 + c / 64 % 64, 0x80 + c % 64]
  else
    [0xF0 + c / 262144, 0x80 + c / 4096 % 64, 0x80 + c / 64 % 64,
     0x80 + c % 64]

/-- `s.encode("utf-8")` on a list of code points. -/
def utf8Encode (cs : List Char) : List Nat :=
  (cs.map (fun c => utf8EncodeChar c.toNat)).flatten

/-- The base64 alphabet. -/
def b64alpha : List Char :=
  "ABCDEFGHIJKLMNOPQRSTUVWXYZabcdefghijklmnopqrstuvwxyz0123456789+/".data

def b64char (n : Nat) : Char := b64alpha.getD n 'A'

/-- Standard base64 encoding with padding (`base64.b64encode`). -/
def b64encodeBytes : List Nat → List Char
  | a :: b :: c :: rest =>
      let w := (a % 256) * 65536 + (b % 256) * 256 + c % 256
      b64char (w / 262144) :: b64char (w / 4096 % 64) ::
        b64char (w / 64 % 64) :: b64char (w % 64) :: b64encodeBytes rest
  | [a, b] =>
      let w := (a % 256) * 1024 + (b % 256) * 4
      [b64char (w / 4096), b64char (w / 64 % 64), b64char (w % 64), '=']
  | [a] =>
      let w := (a % 256) * 16
      [b64char (w / 64), b64char (w % 64), '=', '=']
  | [] => []

/-- Embedding of `RankingEngine._encode_cursor`. -/
def encodeCursor (offset : Int) : String :=
  ⟨b64encodeBytes (utf8Encode (jsonDumpsOffset offset))⟩

/-! ## Cursor decoding (`_decode_cursor`)

`base64.b64decode` (no `validate` flag) first drops every character
outside the alphabet-plus-`=`, then consumes the rest quad by quad:
a quad of 4 data characters yields 3 bytes; `=` after 2 or 3 data
characters ends the data (returning 1 or 2 extra bytes, a 2-character
quad requiring a second `=`); `=` between quads is skipped; anything
else (`=` after 1 data character, or a dangling partial quad at the
end) raises `binascii.Error`, modelled by `none`. -/

def b64value (c : Char) : Option Nat :=
  match b64alpha.findIdx? (· = c) with
  | some i => some i
  | none => none

def b64IsDataOrPad (c : Char) : Bool := (b64value c).isSome || c = '='

/-- Decode the filtered character stream; `quad` holds the 6-bit
values of the current partial quad (length ≤ 3). -/
def b64decodeAux : List Char → List Nat → Option (List Nat)
  | [], quad => if quad.isEmpty then some [] else none
  | c :: rest, quad =>
      if c = '=' then
        match quad with
        | [] => b64decodeAux rest []
        | [_] => none
        | [a, b] =>
            match rest with
            | '=' :: _ => some [a * 4 + b / 16]
            | _ => none
        | [a, b, c'] => some [a * 4 + b / 16, (b % 16) * 16 + c' / 4]
        | _ => none
      else
        match b64value c with
        | some v =>
            match quad with
            | [a, b, c'] =>
                (b64decodeAux rest []).map
                  (fun tl => (a * 4 + b / 16) :: ((b % 16) * 16 + c' / 4) ::
                    ((c' % 4) * 64 + v) :: tl)
            | _ => b64decodeAux rest (quad ++ [v])
        | none => b64decodeAux rest quad

/-- Embedding of `base64.b64decode` applied to a `str` argument:
non-ASCII input raises (the implicit `.encode("ascii")`); otherwise
invalid characters are discarded and quads are decoded. -/
def b64decodePy (s : List Char) : Option (List Nat) :=
  if s.any (fun c => 128 ≤ c.toNat) then none
  else b64decodeAux (s.filter b64IsDataOrPad) []

/-- Decode one UTF-8 sequence starting with byte `b`, returning the
code point and the remaining bytes; strict mode as in
`bytes.decode("utf-8")`: rejects overlong forms, surrogates, values
above `0x10FFFF`, and truncated sequences. -/
def utf8DecodeOne (b : Nat) (rest : List Nat) : Option (Nat × List Nat) :=
  if b < 0x80 then some (b, rest)
  else if b < 0xC2 then none
  else if b < 0xE0 then
    match rest with
    | c1 :: r =>
        if 0x80 ≤ c1 ∧ c1 < 0xC0 then
          some ((b - 0xC0) * 64 + (c1 - 0x80), r)
        else none
    | [] => none
  else if b < 0xF0 then
    match rest with
    | c1 :: c2 :: r =>
        let cp := (b - 0xE0) * 4096 + (c1 - 0x80) * 64 + (c2 - 0x80)
        if (0x80 ≤ c1 ∧ c1 < 0xC0) ∧ (0x80 ≤ c2 ∧ c2 < 0xC0) ∧
            0x800 ≤ cp ∧ ¬(0xD800 ≤ cp ∧ cp ≤ 0xDFFF) then
          some (cp, r)
        else none
    | _ => none
  else if b < 0xF5 then
    match rest with
    | c1 :: c2 :: c3 :: r =>
        let cp := (b - 0xF0) * 262144 + (c1 - 0x80) * 4096 +
          (c2 - 0x80) * 64 + (c3 - 0x80)
        if (0x80 ≤ c1 ∧ c1 < 0xC0) ∧ (0x80 ≤ c2 ∧ c2 < 0xC0) ∧
            (0x80 ≤ c3 ∧ c3 < 0xC0) ∧ 0x10000 ≤ cp ∧ cp ≤ 0x10FFFF then
          some (cp, r)
        else none
    | _ => none
  else none

/-- Decode a whole byte string; each step consumes at least one byte,
so `fuel = length` suffices. -/
def utf8DecodeLoop : Nat → List Nat → Option (List Nat)
  | _, [] => some []
  | 0, _ :: _ => none
  | fuel + 1, b :: rest =>
      match utf8DecodeOne b rest with
      | some (cp, r) => (utf8DecodeLoop fuel r).map (cp :: ·)
      | none => none

/-- `bytes.decode("utf-8")` to a list of code points. -/
def utf8DecodeBytes (bs : List Nat) : Option (List Nat) :=
  utf8DecodeLoop bs.length bs

/-! ## JSON (`json.loads`, as used by `_decode_cursor`)

A faithful model of CPython's pure-python `json` scanner on a list of
code points.  Numbers with a fraction or exponent become Python floats
(`jnum`, carried as their exact decimal value — no claim depends on
binary rounding); `NaN`/`Infinity`/`-Infinity` are accepted as the
scanner does; strings support the standard escapes, `\uXXXX`, and
surrogate-pair joining; objects are CPython dicts (duplicate keys:
last binding wins, original slot kept). -/

inductive JVal where
  | jnull
  | jbool (b : Bool)
  | jint (n : Int)
  | jnum (q : ℚ)
  | jnan
  | jinf (neg : Bool)
  | jstr (s : List Nat)
  | jarr (xs : List JVal)
  | jobj (kvs : List (List Nat × JVal))

/-- Skip JSON whitespace (space, tab, newline, carriage return). -/
def skipWs : List Nat → List Nat
  | c :: r =>
      if c = 32 ∨ c = 9 ∨ c = 10 ∨ c = 13 then skipWs r else c :: r
  | [] => []

/-- `s.startswith(lit)`: strip a literal, or fail. -/
def dropLit : List Nat → List Nat → Option (List Nat)
  | [], s => some s
  | p :: ps, c :: s => if c = p then dropLit ps s else none
  | _ :: _, [] => none

def asciiCps (s : String) : List Nat := s.data.map (·.toNat)

def isDigitCp (c : Nat) : Bool := 48 ≤ c && c ≤ 57

def hexValCp (c : Nat) : Option Nat :=
  if 48 ≤ c ∧ c ≤ 57 then some (c - 48)
  else if 65 ≤ c ∧ c ≤ 70 then some (c - 55)
  else if 97 ≤ c ∧ c ≤ 102 then some (c - 87)
  else none

def parseHex4 : List Nat → Option (Nat × List Nat)
  | a :: b :: c :: d :: r =>
      match hexValCp a, hexValCp b, hexValCp c, hexValCp d with
      | some va, some vb, some vc, some vd =>
          some (va * 4096 + vb * 256 + vc * 16 + vd, r)
      | _, _, _, _ => none
  | _ => none

/-- Single-character escapes of the JSON string grammar. -/
def escMap (e : Nat) : Option Nat :=
  if e = 34 then some 34
  else if e = 92 then some 92
  else if e = 47 then some 47
  else if e = 98 then some 8
  else if e = 102 then some 12
  else if e = 110 then some 10
  else if e = 114 then some 13
  else if e = 116 then some 9
  else none

/-- JSON string body (`py_scanstring`, strict mode), starting after the
opening quote; returns the decoded code points and the remainder after
the closing quote.  Raw control characters are rejected; `\uXXXX`
escapes forming a high/low surrogate pair are joined. -/
def parseJStr : Nat → List Nat → Option (List Nat × List Nat)
  | 0, _ => none
  | _ + 1, [] => none
  | fuel + 1, c :: r =>
      if c = 34 then some ([], r)
      else if c = 92 then
        match r with
        | [] => none
        | e :: r2 =>
            if e = 117 then
              match parseHex4 r2 with
              | none => none
              | some (u, r3) =>
                  if 0xD800 ≤ u ∧ u ≤ 0xDBFF then
                    match r3 with
                    | 92 :: 117 :: r4 =>
                        match parseHex4 r4 with
                        | some (u2, r5) =>
                            if 0xDC00 ≤ u2 ∧ u2 ≤ 0xDFFF then
                              (parseJStr fuel r5).map
                                (fun p =>
                                  ((0x10000 + (u - 0xD800) * 1024 +
                                    (u2 - 0xDC00)) :: p.1, p.2))
                            else
                              (parseJStr fuel r3).map
                                (fun p => (u :: p.1, p.2))
                        | none =>
                            (parseJStr fuel r3).map
                              (fun p => (u :: p.1, p.2))
                    | _ =>
                        (parseJStr fuel r3).map (fun p => (u :: p.1, p.2))
                  else (parseJStr fuel r3).map (fun p => (u :: p.1, p.2))
            else
              match escMap e with
              | some m => (parseJStr fuel r2).map (fun p => (m :: p.1, p.2))
              | none => none
      else if c < 32 then none
      else (parseJStr fuel r).map (fun p => (c :: p.1, p.2))

/-- Longest digit run and the remainder. -/
def takeDigits : List Nat → List Nat × List Nat
  | [] => ([], [])
  | c :: r =>
      if isDigitCp c then
        let p := takeDigits r
        (c :: p.1, p.2)
      else ([], c :: r)

def digitsVal (ds : List Nat) : Nat :=
  ds.foldl (fun a c => a * 10 + (c - 48)) 0

/-- `10 ^ e` over ℚ for an integer exponent. -/
def qpow10 (e : Int) : ℚ :=
  if 0 ≤ e then mkRat (10 ^ e.toNat) 1 else mkRat 1 (10 ^ (-e).toNat)

/-- Optional leading minus sign of a JSON number. -/
def parseSign : List Nat → Bool × List Nat
  | [] => (false, [])
  | c :: r => if c = 45 then (true, r) else (false, c :: r)

/-- The integer part `0|[1-9]\d*` of a JSON number. -/
def parseIntPart : List Nat → Option (Nat × List Nat)
  | [] => none
  | c :: r =>
      if ¬ isDigitCp c then none
      else if c = 48 then some (0, r)
      else
        let p := takeDigits (c :: r)
        some (digitsVal p.1, p.2)

/-- The optional fraction `(\.\d+)?`: value and number of digits. -/
def parseFracPart : List Nat → Option (Nat × Nat) × List Nat
  | [] => (none, [])
  | c :: fr =>
      if c = 46 then
        let p := takeDigits fr
        if p.1.isEmpty then (none, c :: fr)
        else (some (digitsVal p.1, p.1.length), p.2)
      else (none, c :: fr)

/-- The optional exponent `([eE][-+]?\d+)?`. -/
def parseExpPart : List Nat → Option Int × List Nat
  | [] => (none, [])
  | e :: er =>
      if e = 101 ∨ e = 69 then
        let es : Bool × List Nat :=
          match er with
          | 45 :: er2 => (true, er2)
          | 43 :: er2 => (false, er2)
          | _ => (false, er)
        let p := takeDigits es.2
        if p.1.isEmpty then (none, e :: er)
        else
          (some (if es.1 then -(digitsVal p.1 : Int)
                 else (digitsVal p.1 : Int)), p.2)
      else (none, e :: er)

/-- JSON number: the scanner's `NUMBER_RE`
`(-?(?:0|[1-9]\d*))(\.\d+)?([eE][-+]?\d+)?`, converted with `int` when
there is no fraction and no exponent, with `float` otherwise. -/
def parseNumber (s : List Nat) : Option (JVal × List Nat) :=
  let sg := parseSign s
  match parseIntPart sg.2 with
  | none => none
  | some ip =>
      let fr := parseFracPart ip.2
      let ex := parseExpPart fr.2
      match fr.1, ex.1 with
      | none, none =>
          some (JVal.jint (if sg.1 then -(ip.1 : Int) else ip.1), ex.2)
      | f, e =>
          let fv : ℚ :=
            match f with
            | some fp => mkRat fp.1 (10 ^ fp.2)
            | none => 0
          let mag : ℚ := qmul (qadd (mkRat ip.1 1) fv) (qpow10 (e.getD 0))
          some (JVal.jnum (if sg.1 then qneg mag else mag), ex.2)

mutual

/-- The scanner's `_scan_once`: dispatch on the first character. -/
def parseVal : Nat → List Nat → Option (JVal × List Nat)
  | 0, _ => none
  | fuel + 1, s =>
      match s with
      | [] => none
      | c :: r =>
          if c = 34 then
            (parseJStr (r.length + 1) r).map (fun p => (JVal.jstr p.1, p.2))
          else if c = 123 then parseObjBody fuel (skipWs r)
          else if c = 91 then parseArrBody fuel (skipWs r)
          else
            match dropLit (asciiCps "null") s with
            | some rest => some (JVal.jnull, rest)
            | none =>
            match dropLit (asciiCps "true") s with
            | some rest => some (JVal.jbool true, rest)
            | none =>
            match dropLit (asciiCps "false") s with
            | some rest => some (JVal.jbool false, rest)
            | none =>
            match parseNumber s with
            | some p => some p
            | none =>
            match dropLit (asciiCps "NaN") s with
            | some rest => some (JVal.jnan, rest)
            | none =>
            match dropLit (asciiCps "Infinity") s with
            | some rest => some (JVal.jinf false, rest)
            | none =>
            match dropLit (asciiCps "-Infinity") s with
            | some rest => some (JVal.jinf true, rest)
            | none => none

/-- `JSONObject` after the opening brace (whitespace already
skipped): `}` or a first `"key"`. -/
def parseObjBody : Nat → List Nat → Option (JVal × List Nat)
  | 0, _ => none
  | fuel + 1, s =>
      match s with
      | 125 :: r => some (JVal.jobj [], r)
      | 34 :: r => parseMembers fuel r []
      | _ => none

/-- Members of an object; the input starts just after a key's opening
quote.  `acc` is the dict built so far. -/
def parseMembers : Nat → List Nat → List (List Nat × JVal) →
    Option (JVal × List Nat)
  | 0, _, _ => none
  | fuel + 1, s, acc =>
      match parseJStr (s.length + 1) s with
      | none => none
      | some (key, r2) =>
          match skipWs r2 with
          | 58 :: r3 =>
              match parseVal fuel (skipWs r3) with
              | none => none
              | some (v, r4) =>
                  let acc' := upsert key v acc
                  match skipWs r4 with
                  | 44 :: r5 =>
                      match skipWs r5 with
                      | 34 :: r6 => parseMembers fuel r6 acc'
                      | _ => none
                  | 125 :: r5 => some (JVal.jobj acc', r5)
                  | _ => none
          | _ => none

/-- `JSONArray` after the opening bracket (whitespace already
skipped). -/
def parseArrBody : Nat → List Nat → Option (JVal × List Nat)
  | 0, _ => none
  | fuel + 1, s =>
      match s with
      | 93 :: r => some (JVal.jarr [], r)
      | _ => parseArrItems fuel s []

/-- Items of a non-empty array. -/
def parseArrItems : Nat → List Nat → List JVal →
    Option (JVal × List Nat)
  | 0, _, _ => none
  | fuel + 1, s, acc =>
      match parseVal fuel s with
      | none => none
      | some (v, r) =>
          match skipWs r with
          | 44 :: r2 => parseArrItems fuel (skipWs r2) (acc ++ [v])
          | 93 :: r2 => some (JVal.jarr (acc ++ [v]), r2)
          | _ => none

end

/-- Embedding of `json.loads` on a decoded text: parse one value
surrounded by optional whitespace; anything left over is the
`Extra data` error. -/
def jsonLoads (cps : List Nat) : Option JVal :=
  match parseVal ((skipWs cps).length + 1) (skipWs cps) with
  | some (v, rest) => if (skipWs rest).isEmpty then some v else none
  | none => none

/-- `d.get(k, default)` on a parsed JSON object. -/
def jobjGet (kvs : List (List Nat × JVal)) (k : List Nat) (d : JVal) :
    JVal :=
  match kvs.lookup k with
  | some v => v
  | none => d

/-- Embedding of `RankingEngine._decode_cursor` up to the point where
the decoded Python object is in hand: `None` or the empty string (the
`if not cursor` test), a non-ASCII cursor (`b64decode` on a `str`
implicitly ASCII-encodes), a base64 error, a UTF-8 error, a JSON error
and a non-dict payload all collapse to the Python int `0`; a dict
payload yields `data.get("offset", 0)`, whatever that value is. -/
def decodeCursorVal (cursor : Option String) : JVal :=
  match cursor with
  | none => JVal.jint 0
  | some str =>
      if str = "" then JVal.jint 0
      else
        match b64decodePy str.data with
        | none => JVal.jint 0
        | some bytes =>
            match utf8DecodeBytes bytes with
            | none => JVal.jint 0
            | some cps =>
                match jsonLoads cps with
                | some (JVal.jobj kvs) =>
                    jobjGet kvs (asciiCps "offset") (JVal.jint 0)
                | _ => JVal.jint 0

/-! ### Cursor round trip: `_decode_cursor ∘ _encode_cursor = id` -/

def cpsOf (cs : List Char) : List Nat := cs.map (·.toNat)

/-! ## MD5 (`hashlib.md5`)

Standard MD5 (RFC 1321) over byte lists, used by the HTTP edge for
ETags and by the feature-flag service for rollout bucketing.  All
32-bit arithmetic is `Nat` reduced `% 2^32`. -/

def m32 (n : Nat) : Nat := n % 4294967296

def mnot32 (x : Nat) : Nat := 4294967295 - m32 x

def rotl32 (x s : Nat) : Nat :=
  m32 (m32 x <<< s) ||| (m32 x >>> (32 - s))

/-- The 64 sine-derived constants of RFC 1321. -/
def md5K : List Nat :=
  [0xd76aa478, 0xe8c7b756, 0x242070db, 0xc1bdceee,
   0xf57c0faf, 0x4787c62a, 0xa8304613, 0xfd469501,
   0x698098d8, 0x8b44f7af, 0xffff5bb1, 0x895cd7be,
   0x6b901122, 0xfd987193, 0xa679438e, 0x49b40821,
   0xf61e2562, 0xc040b340, 0x265e5a51, 0xe9b6c7aa,
   0xd62f105d, 0x02441453, 0xd8a1e681, 0xe7d3fbc8,
   0x21e1cde6, 0xc33707d6, 0xf4d50d87, 0x455a14ed,
   0xa9e3e905, 0xfcefa3f8, 0x676f02d9, 0x8d2a4c8a,
   0xfffa3942, 0x8771f681, 0x6d9d6122, 0xfde5380c,
   0xa4beea44, 0x4bdecfa9, 0xf6bb4b60, 0xbebfbc70,
   0x289b7ec6, 0xeaa127fa, 0xd4ef3085, 0x04881d05,
   0xd9d4d039, 0xe6db99e5, 0x1fa27cf8, 0xc4ac5665,
   0xf4292244, 0x432aff97, 0xab9423a7, 0xfc93a039,
   0x655b59c3, 0x8f0ccc92, 0xffeff47d, 0x85845dd1,
   0x6fa87e4f, 0xfe2ce6e0, 0xa3014314, 0x4e0811a1,
   0xf7537e82, 0xbd3af235, 0x2ad7d2bb, 0xeb86d391]

/-- The per-round left-rotation amounts. -/
def md5S : List Nat :=
  [7, 12, 17, 22, 7, 12, 17, 22, 7, 12, 17, 22, 7, 12, 17, 22,
   5, 9, 14, 20, 5, 9, 14, 20, 5, 9, 14, 20, 5, 9, 14, 20,
   4, 11, 16, 23, 4, 11, 16, 23, 4, 11, 16, 23, 4, 11, 16, 23,
   6, 10, 15, 21, 6, 10, 15, 21, 6, 10, 15, 21, 6, 10, 15, 21]

/-- Round mixing function and message-word index for round `i`. -/
def md5FG (i b c d : Nat) : Nat × Nat :=
  if i < 16 then ((b &&& c) ||| (mnot32 b &&& d), i)
  else if i < 32 then ((d &&& b) ||| (mnot32 d &&& c), (5 * i + 1) % 16)
  else if i < 48 then (b ^^^ c ^^^ d, (3 * i + 5) % 16)
  else (c ^^^ (b ||| mnot32 d), 7 * i % 16)

/-- One 64-round compression over message words `M`. -/
def md5Compress (M : List Nat) (h : Nat × Nat × Nat × Nat) :
    Nat × Nat × Nat × Nat :=
  let out := (List.range 64).foldl
    (fun (st : Nat × Nat × Nat × Nat) i =>
      let a := st.1
      let b := st.2.1
      let c := st.2.2.1
      let d := st.2.2.2
      let fg := md5FG i b c d
      let tmp := m32 (a + fg.1 + md5K.getD i 0 + M.getD fg.2 0)
      (d, m32 (b + rotl32 tmp (md5S.getD i 0)), b, c))
    h
  (m32 (h.1 + out.1), m32 (h.2.1 + out.2.1),
   m32 (h.2.2.1 + out.2.2.1), m32 (h.2.2.2 + out.2.2.2))

/-- Little-endian 32-bit words from groups of 4 bytes. -/
def bytesToWordsLE : List Nat → List Nat
  | b0 :: b1 :: b2 :: b3 :: rest =>
      (b0 % 256 + b1 % 256 * 256 + b2 % 256 * 65536 +
        b3 % 256 * 16777216) :: bytesToWordsLE rest
  | _ => []

/-- `n` as `k` little-endian bytes. -/
def natToBytesLE : Nat → Nat → List Nat
  | 0, _ => []
  | k + 1, n => n % 256 :: natToBytesLE k (n / 256)

/-- MD5 padding: `0x80`, zeros to 56 mod 64, and the 64-bit
little-endian bit length. -/
def md5Pad (msg : List Nat) : List Nat :=
  let zeros := (55 + 64 - msg.length % 64) % 64
  msg ++ [0x80] ++ List.replicate zeros 0 ++
    natToBytesLE 8 (msg.length * 8 % 18446744073709551616)

/-- Process the padded message in 64-byte chunks; fuel is the number
of chunks. -/
def md5Chunks : Nat → List Nat → Nat × Nat × Nat × Nat →
    Nat × Nat × Nat × Nat
  | 0, _, h => h
  | fuel + 1, msg, h =>
      md5Chunks fuel (msg.drop 64) (md5Compress (bytesToWordsLE (msg.take 64)) h)

/-- The 16 digest bytes of `hashlib.md5(bytes).digest()`. -/
def md5Bytes (msg : List Nat) : List Nat :=
  let padded := md5Pad msg
  let h := md5Chunks (padded.length / 64) padded
    (0x67452301, 0xefcdab89, 0x98badcfe, 0x10325476)
  natToBytesLE 4 h.1 ++ natToBytesLE 4 h.2.1 ++
    natToBytesLE 4 h.2.2.1 ++ natToBytesLE 4 h.2.2.2

def hexDigitChar (n : Nat) : Char :=
  "0123456789abcdef".data.getD n '0'

/-- `hashlib.md5(bytes).hexdigest()`. -/
def md5Hex (msg : List Nat) : String :=
  ⟨(md5Bytes msg).foldr
    (fun b acc => hexDigitChar (b / 16) :: hexDigitChar (b % 16) :: acc) []⟩

/-! ## `RankingEngine.rank` -/

/-- The only way `rank` itself can raise: slicing with an offset that
is not `int`-like (`TypeError` at `scored[offset : offset + limit]`).
Python `bool` offsets are ints (`True == 1`). -/
inductive RankError where
  | typeError
deriving DecidableEq

/-- `RankingEngine.rank` for an already-decoded integer offset:
filter → score → sort → editorial → paginate → materialise. -/
def rankAt (now : ℚ) (candidates : List VideoMetadata)
    (user : UserSignals) (config : TenantRankingRules)
    (limit offset : Int) :
    List FeedItem × Option String × Bool :=
  let scored := rankPipeline now candidates user config
  let pageItems := pySlice scored offset (offset + limit)
  let hasMore := decide (offset + limit < (scored.length : Int))
  let feedItems := toFeedItems now pageItems
  let nextCursor :=
    if hasMore then some (encodeCursor (offset + limit)) else none
  (feedItems, nextCursor, hasMore)

/-- Embedding of `RankingEngine.rank`: decode the cursor, then run the
pipeline; a non-`int`-like decoded offset raises a `TypeError` when
the page is sliced. -/
def rank (now : ℚ) (candidates : List VideoMetadata)
    (user : UserSignals) (config : TenantRankingRules)
    (limit : Int) (cursor : Option String) :
    Except RankError (List FeedItem × Option String × Bool) :=
  match decodeCursorVal cursor with
  | JVal.jint n => Except.ok (rankAt now candidates user config limit n)
  | JVal.jbool b =>
      Except.ok (rankAt now candidates user config limit (if b then 1 else 0))
  | _ => Except.error RankError.typeError

/-! ## Circuit breaker (`app/core/circuit_breaker.py`) -/

inductive CircuitState where
  | closed
  | opened
  | halfOpen
deriving DecidableEq

/-- Embedding of `CircuitBreaker`'s mutable fields and parameters. -/
structure CircuitBreaker where
  name : String
  failure_threshold : Nat := 5
  recovery_timeout_sec : ℚ := 30
  state : CircuitState := CircuitState.closed
  failure_count : Nat := 0
  last_failure_time : Option ℚ := none
deriving DecidableEq

/-- What `CircuitBreaker.call` produces: the primary's value, the
re-raised primary exception, or `CircuitBreakerOpenError`. -/
inductive CallResult (T : Type) where
  | ok (v : T)
  | primaryError
  | circuitOpenError
deriving DecidableEq

/-- Result of a `call`, together with the post-call breaker state and
two observations: whether the protected call ran and whether the
fallback supplied the returned value. -/
structure CallOutcome (T : Type) where
  result : CallResult T
  breaker : CircuitBreaker
  executedPrimary : Bool
  usedFallback : Bool
deriving DecidableEq

/-- Embedding of `CircuitBreaker._should_attempt_reset`. -/
def shouldAttemptReset (cb : CircuitBreaker) (now : ℚ) : Bool :=
  match cb.last_failure_time with
  | none => true
  | some t => cb.recovery_timeout_sec ≤ qsub now t

/-- Embedding of `CircuitBreaker._on_success`. -/
def onSuccess (cb : CircuitBreaker) : CircuitBreaker :=
  { cb with
    failure_count := 0
    state := if cb.state = CircuitState.halfOpen then CircuitState.closed
             else cb.state }

/-- Embedding of `CircuitBreaker._on_failure`. -/
def onFailure (cb : CircuitBreaker) (now : ℚ) : CircuitBreaker :=
  let fc := cb.failure_count + 1
  { cb with
    failure_count := fc
    last_failure_time := some now
    state := if cb.failure_threshold ≤ fc then CircuitState.opened
             else cb.state }

/-- Embedding of `CircuitBreaker.call`.  The protected call's
behaviour at this instant is given as `primary` (`.ok` = returns,
`.error` = raises). -/
def CircuitBreaker.call (cb : CircuitBreaker) (now : ℚ)
    (primary : Except Unit T) (fallback : Option T) : CallOutcome T :=
  if cb.state = CircuitState.opened ∧ ¬ shouldAttemptReset cb now then
    match fallback with
    | some fb =>
        { result := CallResult.ok fb, breaker := cb,
          executedPrimary := false, usedFallback := true }
    | none =>
        { result := CallResult.circuitOpenError, breaker := cb,
          executedPrimary := false, usedFallback := false }
  else
    let cb1 :=
      if cb.state = CircuitState.opened then
        { cb with state := CircuitState.halfOpen }
      else cb
    match primary with
    | Except.ok v =>
        { result := CallResult.ok v, breaker := onSuccess cb1,
          executedPrimary := true, usedFallback := false }
    | Except.error _ =>
        let cb2 := onFailure cb1 now
        match fallback with
        | some fb =>
            { result := CallResult.ok fb, breaker := cb2,
              executedPrimary := true, usedFallback := true }
        | none =>
            { result := CallResult.primaryError, breaker := cb2,
              executedPrimary := true, usedFallback := false }

/-! ## TTL cache (`app/core/cache.py`) -/

/-- Embedding of `CacheEntry`. -/
structure CacheEntry (V : Type) where
  value : V
  expires_at : Option ℚ
deriving DecidableEq

/-- Embedding of `CacheEntry.is_expired` at time `now`. -/
def CacheEntry.is_expired (e : CacheEntry V) (now : ℚ) : Bool :=
  match e.expires_at with
  | none => false
  | some t => t < now

/-- Embedding of `InMemoryCache`'s store and construction-time
default TTL. -/
structure InMemoryCache (V : Type) where
  store : List (String × CacheEntry V) := []
  default_ttl : Option Int := none

/-- Embedding of `InMemoryCache.get`: returns the value unless the
entry is missing or expired; an expired entry is deleted. -/
def InMemoryCache.get (c : InMemoryCache V) (now : ℚ) (key : String) :
    Option V × InMemoryCache V :=
  match c.store.lookup key with
  | none => (none, c)
  | some e =>
      if e.is_expired now then
        (none, { c with store := c.store.filter (fun kv => !(kv.1 = key)) })
      else (some e.value, c)

/-- Embedding of `InMemoryCache.set`: the effective TTL is the
explicit one if given, else the default; `expires_at = now + ttl` is
set only when the effective TTL is truthy (non-`None` and non-zero). -/
def InMemoryCache.set (c : InMemoryCache V) (now : ℚ) (key : String)
    (value : V) (ttl_seconds : Option Int) : InMemoryCache V :=
  let ttl := match ttl_seconds with
    | some t => some t
    | none => c.default_ttl
  let expires_at : Option ℚ := match ttl with
    | some t => if ¬(t = 0) then some (qadd now (mkRat t 1)) else none
    | none => none
  { c with store := upsert key ⟨value, expires_at⟩ c.store }

/-! ## Feature flags (`app/services/feature_flags.py`) and settings -/

/-- The settings fields the request path reads. -/
structure Settings where
  PERSONALIZATION_ENABLED : Bool := true
  KILL_SWITCH_ACTIVE : Bool := false
  ROLLOUT_PERCENTAGE : Int := 100
  MAX_FEED_LIMIT : Int := 50
deriving DecidableEq

/-- Embedding of `_is_user_in_rollout`'s bucket: the first 4 MD5
digest bytes of the user hash, big-endian, mod 100. -/
def rolloutBucket (user_hash : String) : Nat :=
  (((md5Bytes (utf8Encode user_hash.data)).take 4).foldl
    (fun acc b => acc * 256 + b) 0) % 100

/-- Embedding of `ConfigBasedFeatureFlagService.is_personalization_enabled`. -/
def isPersonalizationEnabled (settings : Settings)
    (rollout_percentage : ℚ) (user_hash : String) : Bool :=
  if settings.KILL_SWITCH_ACTIVE then false
  else if ¬ settings.PERSONALIZATION_ENABLED then false
  else if rollout_percentage < 100 then
    (rolloutBucket user_hash : ℚ) < rollout_percentage
  else true

/-! ## Feed service (`app/services/feed.py`) -/

/-- A fallback `FeedItem` as built by `_get_fallback_feed`. -/
def mkFallbackItem (now : ℚ) (video : VideoMetadata) : FeedItem :=
  { id := video.id
    title := video.title
    playback_url := "https://cdn.example.com/v/" ++ video.id ++ ".m3u8"
    tracking_token := "fallback_" ++ video.id ++ "_" ++ toString (qfloor now)
    debug_score := some video.score }

/-- Embedding of `FeedService._get_fallback_feed`, given the already
fetched fallback videos. -/
def getFallbackFeed (now : ℚ) (fallback_videos : List VideoMetadata)
    (limit : Int) (degraded : Bool) : FeedResponse :=
  { items := (pySlice fallback_videos 0 limit).map (mkFallbackItem now)
    next_cursor := none
    has_more := false
    is_personalized := false
    degraded := degraded }

/-- A `FeedItem` as built by `_get_fallback_items_sync`. -/
def mkCbFallbackItem (now : ℚ) (video : VideoMetadata) : FeedItem :=
  { id := video.id
    title := video.title
    playback_url := "https://cdn.example.com/v/" ++ video.id ++ ".m3u8"
    tracking_token := "cb_fallback_" ++ video.id ++ "_" ++ toString (qfloor now)
    debug_score := some video.score }

/-- Embedding of `FeedService._get_fallback_items_sync`: top `limit`
candidates by base score (stable descending sort), no cursor, no
more pages. -/
def getFallbackItemsSync (now : ℚ) (candidates : List VideoMetadata)
    (limit : Int) : List FeedItem × Option String × Bool :=
  ((pySlice (sortStable (fun a b => b.score ≤ a.score) candidates) 0 limit).map
    (mkCbFallbackItem now), none, false)

/-- Results of the three repository fetches plus the fallback feed;
`.error` models a raising fetch. -/
structure RepoFetch where
  user_signals : Except Unit (Option UserSignals)
  candidates : Except Unit (List VideoMetadata)
  config : Except Unit (Option TenantRankingRules)
  fallback_videos : List VideoMetadata

/-- Embedding of `FeedService._get_personalized_feed`.  `.error ()`
models an uncaught exception propagating to `get_feed`'s handler. -/
def getPersonalizedFeed (now : ℚ) (repo : RepoFetch)
    (cb : CircuitBreaker) (tenant_id user_hash : String)
    (limit : Int) (cursor : Option String) :
    Except Unit (FeedResponse × CircuitBreaker) :=
  match repo.user_signals with
  | Except.error _ => Except.error ()
  | Except.ok us0 =>
  match repo.candidates with
  | Except.error _ => Except.error ()
  | Except.ok cands =>
  match repo.config with
  | Except.error _ => Except.error ()
  | Except.ok cfg0 =>
      let user_signals := us0.getD { user_hash := user_hash }
      if cands.isEmpty then
        Except.ok (getFallbackFeed now repo.fallback_videos limit true, cb)
      else
        let config := cfg0.getD { tenant_id := tenant_id }
        let candidates :=
          if 200 < cands.length then pySlice cands 0 200 else cands
        let primaryOutcome : Except Unit (List FeedItem × Option String × Bool) :=
          match rank now candidates user_signals config limit cursor with
          | Except.ok v => Except.ok v
          | Except.error _ => Except.error ()
        let out := cb.call now primaryOutcome
          (some (getFallbackItemsSync now candidates limit))
        match out.result with
        | CallResult.ok (items, next_cursor, has_more) =>
            Except.ok
              ({ items := items, next_cursor := next_cursor,
                 has_more := has_more, is_personalized := true,
                 degraded := false }, out.breaker)
        | CallResult.primaryError => Except.error ()
        | CallResult.circuitOpenError => Except.error ()

/-- `sum(ord(c) for c in user_hash)`. -/
def sumOrd (s : String) : Nat := s.data.foldl (fun a c => a + c.toNat) 0

/-- Embedding of `FeedService.get_feed`: flag gate, ad-hoc rollout
gate, personalized path, catch-all fallback. -/
def getFeed (settings : Settings) (flagRollout : ℚ) (now : ℚ)
    (repo : RepoFetch) (cb : CircuitBreaker) (tenant_id user_hash : String)
    (limit : Int) (cursor : Option String) :
    FeedResponse × CircuitBreaker :=
  let pe0 := isPersonalizationEnabled settings flagRollout user_hash
  let user_hash_int := sumOrd user_hash
  let pe :=
    if settings.ROLLOUT_PERCENTAGE ≤ ((user_hash_int % 100 : Nat) : Int)
    then false else pe0
  if ¬ pe then (getFallbackFeed now repo.fallback_videos limit false, cb)
  else
    match getPersonalizedFeed now repo cb tenant_id user_hash limit cursor with
    | Except.ok r => r
    | Except.error _ => (getFallbackFeed now repo.fallback_videos limit true, cb)

/-! ## HTTP edge (`app/api/routers/feed.py`) -/

/-- The response pieces the router controls. -/
structure HttpResult where
  status : Nat
  etag_header : Option String
  has_body : Bool
  cache_control : Option String
  vary : Option String
  x_personalized : Option String
deriving DecidableEq

/-- The weak ETag: `W/"h"` with `h` the first 16 hex digits of the
MD5 of the concatenated item ids; absent when there are no items. -/
def etagOf (items : List FeedItem) : Option String :=
  if items.isEmpty then none
  else
    some ("W/\"" ++
      String.mk (((md5Hex (utf8Encode
        (String.join (items.map (·.id))).data)).data).take 16) ++ "\"")

/-- Embedding of the ETag / 304 / cache-header logic of `get_feed` in
the router, applied to a served `FeedResponse`.  A 304 is returned as
a bare `Response` whose construction carries no feed body (and, since
FastAPI does not merge the injected response's headers into a
directly returned `Response`, no ETag header). -/
def routeFeedResult (feed_response : FeedResponse)
    (if_none_match : Option String) : HttpResult :=
  let etag := etagOf feed_response.items
  let inmTruthy :=
    match if_none_match with
    | some s => !(s = "")
    | none => false
  if inmTruthy && etag.isSome && (if_none_match == etag) then
    { status := 304, etag_header := none, has_body := false,
      cache_control := none, vary := none, x_personalized := none }
  else
    { status := 200
      etag_header := etag
      has_body := true
      cache_control := some
        (if feed_response.is_personalized ∧ ¬ feed_response.degraded
         then "private, max-age=30"
         else "public, max-age=30, stale-while-revalidate=15")
      vary := some
        (if feed_response.is_personalized ∧ ¬ feed_response.degraded
         then "X-User-Hash" else "Accept-Encoding")
      x_personalized := some
        (if feed_response.is_personalized then "true" else "false") }

/-! ## Supporting lemmas for the claims -/

instance [DecidableEq ε] [DecidableEq α] : DecidableEq (Except ε α) := fun x y =>
  match x, y with
  | Except.ok a, Except.ok b =>
      if h : a = b then isTrue (by rw [h])
      else isFalse (by intro hc; injection hc; contradiction)
  | Except.error a, Except.error b =>
      if h : a = b then isTrue (by rw [h])
      else isFalse (by intro hc; injection hc; contradiction)
  | Except.ok _, Except.error _ => isFalse (by intro hc; cases hc)
  | Except.error _, Except.ok _ => isFalse (by intro hc; cases hc)

/-! ## Concrete instances used by witnesses and counterexamples -/

def c7cands : List VideoMetadata :=
  [{ id := "w", title := "Watched", score := 10, tags := [],
     maturity_rating := "G", published_at := 0 },
   { id := "x", title := "Excluded", score := 9, tags := ["banned"],
     maturity_rating := "G", published_at := 0 },
   { id := "m", title := "Mature", score := 8, tags := [],
     maturity_rating := "NC-17", published_at := 0 },
   { id := "g", title := "Good", score := 7, tags := ["ok"],
     maturity_rating := "PG", published_at := 0 }]

def c7user : UserSignals :=
  { user_hash := "u", watched_ids := ["w"], affinities := [] }

def c7config : TenantRankingRules :=
  { tenant_id := "t", filters_exclude_tags := ["banned"],
    filters_max_maturity := some "R" }

def c7item : FeedItem :=
  { id := "g", title := "Good",
    playback_url := "https://cdn.example.com/v/g.m3u8",
    tracking_token := "tok_g_0", debug_score := some 14 }

def c7items : List FeedItem := [c7item]

def c2user : UserSignals := { user_hash := "u" }

def c2cfg : TenantRankingRules := { tenant_id := "t" }

def c2v (i : String) : VideoMetadata :=
  { id := i, title := "T", score := 50, tags := [],
    maturity_rating := "G", published_at := 0 }

def c3vA : VideoMetadata :=
  { id := "A", title := "A", score := 10, tags := [],
    maturity_rating := "G", published_at := 0 }

def c3vB : VideoMetadata :=
  { id := "B", title := "B", score := 5, tags := [],
    maturity_rating := "G", published_at := 0 }

def c3user : UserSignals := { user_hash := "u" }

def c3cfgSame : TenantRankingRules :=
  { tenant_id := "t", editorial_boosts := [("A", 0), ("B", 0)] }

def c3cfgDistinct : TenantRankingRules :=
  { tenant_id := "t", editorial_boosts := [("A", 0), ("B", 1)] }

def c3scored : List ScoredVideo :=
  [{ video := c3vA, final_score := 1 }, { video := c3vB, final_score := 2 }]

/-- The target positions of the scored items that carry an editorial
boost, in scored order. -/
def editorialPositions (scored : List ScoredVideo)
    (config : TenantRankingRules) : List Int :=
  scored.filterMap (fun item => config.editorial_boosts.lookup item.video.id)

def c4user : UserSignals := { user_hash := "u" }

def c4cfg : TenantRankingRules := { tenant_id := "t" }

def c4cands : List VideoMetadata :=
  [{ id := "p", title := "P", score := 9, tags := [],
     maturity_rating := "G", published_at := 0 },
   { id := "q", title := "Q", score := 8, tags := [],
     maturity_rating := "G", published_at := 0 }]

/-- Following `has_more`/`next_cursor`: call `rank`, and while it
reports more pages feed the returned cursor back verbatim,
concatenating the items (`fuel` bounds the number of pages). -/
def collectPages (now : ℚ) (candidates : List VideoMetadata)
    (user : UserSignals) (config : TenantRankingRules) (limit : Int) :
    Nat → Option String → List FeedItem
  | 0, _ => []
  | fuel + 1, cursor =>
      match rank now candidates user config limit cursor with
      | Except.error _ => []
      | Except.ok (items, next_cursor, has_more) =>
          if has_more then
            match next_cursor with
            | some c =>
                items ++ collectPages now candidates user config limit fuel (some c)
            | none => items
          else items

def c5user : UserSignals := { user_hash := "u" }

def c5cfg : TenantRankingRules := { tenant_id := "t" }

def c5cands : List VideoMetadata :=
  [{ id := "a", title := "A", score := 9, tags := [],
     maturity_rating := "G", published_at := 0 },
   { id := "b", title := "B", score := 8, tags := [],
     maturity_rating := "G", published_at := 0 },
   { id := "c", title := "C", score := 7, tags := [],
     maturity_rating := "G", published_at := 0 }]

/-- A sequence of calls whose primary raises, at the given times,
with no fallback. -/
def failCalls (cb : CircuitBreaker) (times : List ℚ) : CircuitBreaker :=
  times.foldl
    (fun b t =>
      (CircuitBreaker.call b t (Except.error ()) (none : Option Unit)).breaker)
    cb

def c6cb : CircuitBreaker :=
  { name := "ranking_service", failure_threshold := 2,
    recovery_timeout_sec := 30 }

def c1cands : List VideoMetadata :=
  [{ id := "a", title := "A", score := 9, tags := [],
     maturity_rating := "G", published_at := 0 },
   { id := "b", title := "B", score := 8, tags := [],
     maturity_rating := "G", published_at := 0 }]

/-- A user who has watched every candidate, so the ranked feed is
empty while the breaker fallback (which applies no user filters)
is not. -/
def c1user : UserSignals := { user_hash := "u", watched_ids := ["a", "b"] }

def c1cfg : TenantRankingRules := { tenant_id := "t" }

/-- An OPEN breaker inside its recovery window at time 1. -/
def c1cb : CircuitBreaker :=
  { name := "ranking_service", failure_threshold := 5,
    recovery_timeout_sec := 30, state := CircuitState.opened,
    failure_count := 5, last_failure_time := some 0 }

def c1repo : RepoFetch :=
  { user_signals := Except.ok (some c1user),
    candidates := Except.ok c1cands,
    config := Except.ok none,
    fallback_videos := [] }

def mkC8Item (i : String) : FeedItem :=
  { id := i, title := "T", playback_url := "u", tracking_token := "t" }

/-- Items whose ids are `["ab", "c"]`. -/
def c8itemsA : List FeedItem := [mkC8Item "ab", mkC8Item "c"]

/-- Items whose ids are `["a", "bc"]` — a different id sequence with
the same concatenation. -/
def c8itemsB : List FeedItem := [mkC8Item "a", mkC8Item "bc"]

def hexDigits : List Char := "0123456789abcdef".data

theorem qadd_eq (a b : ℚ) : qadd a b = a + b := (Rat.add_def' a b).symm

theorem qneg_eq (a : ℚ) : qneg a = -a := by
  rw [qneg, ← Rat.neg_mkRat, Rat.mkRat_self]

theorem qsub_eq (a b : ℚ) : qsub a b = a - b := by
  rw [qsub, qadd_eq, qneg_eq, sub_eq_add_neg]

theorem qmul_eq (a b : ℚ) : qmul a b = a * b := by
  rw [qmul, ← Rat.normalize_eq_mkRat, ← Rat.mul_def]

theorem qinv_eq (a : ℚ) : qinv a = a⁻¹ := (Rat.inv_def a).symm

theorem qdiv_eq (a b : ℚ) : qdiv a b = a / b := by
  rw [qdiv, qmul_eq, qinv_eq, div_eq_mul_inv]

theorem qmax_eq (a b : ℚ) : qmax a b = max a b := by
  rw [qmax, max_def]
  rcases lt_trichotomy a b with h | h | h
  · rw [if_pos h, if_pos h.le]
  · subst h
    simp
  · rw [if_neg (not_lt.mpr h.le), if_neg (not_le.mpr h)]

theorem qfloor_eq (a : ℚ) : qfloor a = ⌊a⌋ := Rat.floor_def.symm

theorem insertLe_perm (le : α → α → Bool) (a : α) (l : List α) :
    (insertLe le a l).Perm (a :: l) := by
  induction l with
  | nil => simp [insertLe]
  | cons b bs ih =>
      simp only [insertLe]
      by_cases h : le a b
      · simp [h]
      · simp only [h, if_neg, Bool.false_eq_true]
        exact (ih.cons b).trans (List.Perm.swap a b bs)

theorem sortStable_perm (le : α → α → Bool) (l : List α) :
    (sortStable le l).Perm l := by
  induction l with
  | nil => simp [sortStable]
  | cons a l ih =>
      exact ((insertLe_perm le a (sortStable le l)).trans (ih.cons a))

theorem mem_insertLe {le : α → α → Bool} {a x : α} {l : List α} :
    x ∈ insertLe le a l ↔ x = a ∨ x ∈ l := by
  constructor
  · intro h
    have := (insertLe_perm le a l).mem_iff.mp h
    simpa using this
  · intro h
    exact (insertLe_perm le a l).mem_iff.mpr (by simpa using h)

theorem insertLe_pairwise {le : α → α → Bool}
    (htrans : ∀ x y z, le x y = true → le y z = true → le x z = true)
    (htotal : ∀ x y, le x y = true ∨ le y x = true)
    (a : α) {l : List α} (hl : l.Pairwise (le · · = true)) :
    (insertLe le a l).Pairwise (le · · = true) := by
  induction l with
  | nil => simp [insertLe]
  | cons b bs ih =>
      rcases List.pairwise_cons.mp hl with ⟨hb, hbs⟩
      by_cases h : le a b = true
      · simp only [insertLe, h, if_pos]
        refine List.pairwise_cons.mpr ⟨?_, hl⟩
        intro x hx
        rcases List.mem_cons.mp hx with rfl | hx
        · exact h
        · exact htrans a b x h (hb x hx)
      · simp only [insertLe, h, if_neg, Bool.false_eq_true]
        refine List.pairwise_cons.mpr ⟨?_, ih hbs⟩
        intro x hx
        have hba : le b a = true := by
          rcases htotal a b with h' | h'
          · exact absurd h' h
          · exact h'
        rcases mem_insertLe.mp hx with rfl | hx
        · exact hba
        · exact hb x hx

theorem sortStable_pairwise {le : α → α → Bool}
    (htrans : ∀ x y z, le x y = true → le y z = true → le x z = true)
    (htotal : ∀ x y, le x y = true ∨ le y x = true)
    (l : List α) : (sortStable le l).Pairwise (le · · = true) := by
  induction l with
  | nil => simp [sortStable]
  | cons a l ih => exact insertLe_pairwise htrans htotal a ih

theorem filter_insertLe_of_neg {le : α → α → Bool} {p : α → Bool} {a : α}
    (hpa : p a = false) (l : List α) :
    (insertLe le a l).filter p = l.filter p := by
  induction l with
  | nil => simp [insertLe, hpa]
  | cons b bs ih =>
      simp only [insertLe]
      by_cases h : le a b = true
      · simp [h, List.filter_cons, hpa]
      · simp [h, List.filter_cons, ih]

theorem filter_insertLe_of_pos {le : α → α → Bool} {p : α → Bool} {a : α}
    (hpa : p a = true)
    {l : List α} (hclass : ∀ b ∈ l, p b = true → le a b = true) :
    (insertLe le a l).filter p = a :: l.filter p := by
  induction l with
  | nil => simp [insertLe, hpa]
  | cons b bs ih =>
      simp only [insertLe]
      by_cases h : le a b = true
      · simp [h, List.filter_cons, hpa]
      · have hpb : p b = false := by
          by_contra hpb
          exact h (hclass b (List.mem_cons_self b bs) (by simpa using hpb))
        have ih' := ih (fun x hx hpx => hclass x (List.mem_cons_of_mem b hx) hpx)
        simp [h, List.filter_cons, hpb, ih']

/-- Stability of `sortStable`: the elements of any equivalence class of
the comparison (any set of mutually tied elements, selected by `p`)
appear in the output in exactly their input order. -/
theorem sortStable_filter_eq {le : α → α → Bool} {p : α → Bool}
    (hclass : ∀ x y, p x = true → p y = true → le x y = true)
    (l : List α) : (sortStable le l).filter p = l.filter p := by
  induction l with
  | nil => rfl
  | cons a l ih =>
      by_cases hpa : p a = true
      · have h1 : (insertLe le a (sortStable le l)).filter p
            = a :: (sortStable le l).filter p :=
          filter_insertLe_of_pos hpa
            (fun b _ hpb => hclass a b hpa hpb)
        simp [sortStable, h1, ih, List.filter_cons, hpa]
      · have hpa' : p a = false := by simpa using hpa
        simp [sortStable, filter_insertLe_of_neg hpa', ih,
          List.filter_cons, hpa']

/-! ### Base64 round trip -/

theorem b64char_toNat_lt : ∀ n, n < 64 → (b64char n).toNat < 128 := by
  decide

theorem b64value_b64char : ∀ n, n < 64 → b64value (b64char n) = some n := by
  decide

theorem b64char_ne_pad : ∀ n, n < 64 → ¬(b64char n = '=') := by decide

theorem b64IsDataOrPad_b64char : ∀ n, n < 64 →
    b64IsDataOrPad (b64char n) = true := by decide

theorem b64encodeBytes_chars (bs : List Nat) :
    ∀ c ∈ b64encodeBytes bs, b64IsDataOrPad c = true ∧ c.toNat < 128 := by
  induction bs using b64encodeBytes.induct with
  | case1 a b c rest ih =>
      intro x hx
      simp only [b64encodeBytes, List.mem_cons] at hx
      rcases hx with rfl | rfl | rfl | rfl | hx
      · exact ⟨b64IsDataOrPad_b64char _ (by omega), b64char_toNat_lt _ (by omega)⟩
      · exact ⟨b64IsDataOrPad_b64char _ (by omega), b64char_toNat_lt _ (by omega)⟩
      · exact ⟨b64IsDataOrPad_b64char _ (by omega), b64char_toNat_lt _ (by omega)⟩
      · exact ⟨b64IsDataOrPad_b64char _ (by omega), b64char_toNat_lt _ (by omega)⟩
      · exact ih x hx
  | case2 a b =>
      intro x hx
      simp only [b64encodeBytes, List.mem_cons] at hx
      rcases hx with rfl | rfl | rfl | rfl | hx
      · exact ⟨b64IsDataOrPad_b64char _ (by omega), b64char_toNat_lt _ (by omega)⟩
      · exact ⟨b64IsDataOrPad_b64char _ (by omega), b64char_toNat_lt _ (by omega)⟩
      · exact ⟨b64IsDataOrPad_b64char _ (by omega), b64char_toNat_lt _ (by omega)⟩
      · exact ⟨by decide, by decide⟩
      · simp at hx
  | case3 a =>
      intro x hx
      simp only [b64encodeBytes, List.mem_cons] at hx
      rcases hx with rfl | rfl | rfl | rfl | hx
      · exact ⟨b64IsDataOrPad_b64char _ (by omega), b64char_toNat_lt _ (by omega)⟩
      · exact ⟨b64IsDataOrPad_b64char _ (by omega), b64char_toNat_lt _ (by omega)⟩
      · exact ⟨by decide, by decide⟩
      · exact ⟨by decide, by decide⟩
      · simp at hx
  | case4 =>
      intro x hx
      simp [b64encodeBytes] at hx

theorem b64encodeBytes_cons3 (a b c : Nat) (rest : List Nat) :
    b64encodeBytes (a :: b :: c :: rest) =
      b64char ((a % 256 * 65536 + b % 256 * 256 + c % 256) / 262144) ::
      b64char ((a % 256 * 65536 + b % 256 * 256 + c % 256) / 4096 % 64) ::
      b64char ((a % 256 * 65536 + b % 256 * 256 + c % 256) / 64 % 64) ::
      b64char ((a % 256 * 65536 + b % 256 * 256 + c % 256) % 64) ::
      b64encodeBytes rest := rfl

theorem b64encodeBytes_two (a b : Nat) :
    b64encodeBytes [a, b] =
      [b64char ((a % 256 * 1024 + b % 256 * 4) / 4096),
       b64char ((a % 256 * 1024 + b % 256 * 4) / 64 % 64),
       b64char ((a % 256 * 1024 + b % 256 * 4) % 64), '='] := rfl

theorem b64encodeBytes_one (a : Nat) :
    b64encodeBytes [a] =
      [b64char (a % 256 * 16 / 64), b64char (a % 256 * 16 % 64), '=', '='] :=
  rfl

theorem b64decodeAux_step0 {c : Char} {v : Nat} (hne : ¬(c = '='))
    (hv : b64value c = some v) (rest : List Char) :
    b64decodeAux (c :: rest) [] = b64decodeAux rest [v] := by
  simp [b64decodeAux, hne, hv]

theorem b64decodeAux_step1 {c : Char} {v : Nat} (hne : ¬(c = '='))
    (hv : b64value c = some v) (rest : List Char) (x : Nat) :
    b64decodeAux (c :: rest) [x] = b64decodeAux rest [x, v] := by
  simp [b64decodeAux, hne, hv]

theorem b64decodeAux_step2 {c : Char} {v : Nat} (hne : ¬(c = '='))
    (hv : b64value c = some v) (rest : List Char) (x y : Nat) :
    b64decodeAux (c :: rest) [x, y] = b64decodeAux rest [x, y, v] := by
  simp [b64decodeAux, hne, hv]

theorem b64decodeAux_step3 {c : Char} {v : Nat} (hne : ¬(c = '='))
    (hv : b64value c = some v) (rest : List Char) (x y z : Nat) :
    b64decodeAux (c :: rest) [x, y, z] =
      (b64decodeAux rest []).map
        (fun tl => (x * 4 + y / 16) :: (y % 16 * 16 + z / 4) ::
          (z % 4 * 64 + v) :: tl) := by
  simp [b64decodeAux, hne, hv]

theorem b64decodeAux_pad3 (rest : List Char) (x y z : Nat) :
    b64decodeAux ('=' :: rest) [x, y, z] =
      some [x * 4 + y / 16, y % 16 * 16 + z / 4] := by
  simp [b64decodeAux]

theorem b64decodeAux_pad2 (rest : List Char) (x y : Nat) :
    b64decodeAux ('=' :: '=' :: rest) [x, y] = some [x * 4 + y / 16] := by
  simp [b64decodeAux]

theorem b64decodeAux_encode : ∀ bs : List Nat, (∀ x ∈ bs, x < 256) →
    b64decodeAux (b64encodeBytes bs) [] = some bs := by
  intro bs
  induction bs using b64encodeBytes.induct with
  | case1 a b c rest ih =>
      intro h
      have ha : a < 256 := h a (by simp)
      have hb : b < 256 := h b (by simp)
      have hc : c < 256 := h c (by simp)
      have ihr := ih (fun x hx => h x (by simp [hx]))
      rw [b64encodeBytes_cons3]
      set w := a % 256 * 65536 + b % 256 * 256 + c % 256 with hw
      have h0 : w / 262144 < 64 := by omega
      have h1 : w / 4096 % 64 < 64 := by omega
      have h2 : w / 64 % 64 < 64 := by omega
      have h3 : w % 64 < 64 := by omega
      rw [b64decodeAux_step0 (b64char_ne_pad _ h0) (b64value_b64char _ h0),
        b64decodeAux_step1 (b64char_ne_pad _ h1) (b64value_b64char _ h1),
        b64decodeAux_step2 (b64char_ne_pad _ h2) (b64value_b64char _ h2),
        b64decodeAux_step3 (b64char_ne_pad _ h3) (b64value_b64char _ h3),
        ihr]
      have e1 : w / 262144 * 4 + w / 4096 % 64 / 16 = a := by omega
      have e2 : w / 4096 % 64 % 16 * 16 + w / 64 % 64 / 4 = b := by omega
      have e3 : w / 64 % 64 % 4 * 64 + w % 64 = c := by omega
      simp [e1, e2, e3]
  | case2 a b =>
      intro h
      have ha : a < 256 := h a (by simp)
      have hb : b < 256 := h b (by simp)
      rw [b64encodeBytes_two]
      set w := a % 256 * 1024 + b % 256 * 4 with hw
      have h0 : w / 4096 < 64 := by omega
      have h1 : w / 64 % 64 < 64 := by omega
      have h2 : w % 64 < 64 := by omega
      rw [show ([b64char (w / 4096), b64char (w / 64 % 64),
              b64char (w % 64), '='] : List Char)
            = b64char (w / 4096) :: b64char (w / 64 % 64) ::
              b64char (w % 64) :: ['='] from rfl,
        b64decodeAux_step0 (b64char_ne_pad _ h0) (b64value_b64char _ h0),
        b64decodeAux_step1 (b64char_ne_pad _ h1) (b64value_b64char _ h1),
        b64decodeAux_step2 (b64char_ne_pad _ h2) (b64value_b64char _ h2),
        b64decodeAux_pad3]
      have e1 : w / 4096 * 4 + w / 64 % 64 / 16 = a := by omega
      have e2 : w / 64 % 64 % 16 * 16 + w % 64 / 4 = b := by omega
      simp [e1, e2]
  | case3 a =>
      intro h
      have ha : a < 256 := h a (by simp)
      rw [b64encodeBytes_one]
      set w := a % 256 * 16 with hw
      have h0 : w / 64 < 64 := by omega
      have h1 : w % 64 < 64 := by omega
      rw [show ([b64char (w / 64), b64char (w % 64), '=', '='] : List Char)
            = b64char (w / 64) :: b64char (w % 64) :: '=' :: ['='] from rfl,
        b64decodeAux_step0 (b64char_ne_pad _ h0) (b64value_b64char _ h0),
        b64decodeAux_step1 (b64char_ne_pad _ h1) (b64value_b64char _ h1),
        b64decodeAux_pad2]
      have e1 : w / 64 * 4 + w % 64 / 16 = a := by omega
      simp [e1]
  | case4 =>
      intro _
      rfl

/-- `base64.b64decode ∘ base64.b64encode` is the identity on byte
lists. -/
theorem b64decodePy_encode (bs : List Nat) (h : ∀ x ∈ bs, x < 256) :
    b64decodePy (b64encodeBytes bs) = some bs := by
  unfold b64decodePy
  have hascii : (b64encodeBytes bs).any (fun c => 128 ≤ c.toNat) = false := by
    rw [List.any_eq_false]
    intro c hc
    have := (b64encodeBytes_chars bs c hc).2
    simp only [decide_eq_true_eq]
    omega
  rw [if_neg (by simp [hascii])]
  have hfilter : (b64encodeBytes bs).filter b64IsDataOrPad
      = b64encodeBytes bs :=
    List.filter_eq_self.mpr (fun c hc => (b64encodeBytes_chars bs c hc).1)
  rw [hfilter, b64decodeAux_encode bs h]

theorem utf8EncodeChar_ascii {c : Nat} (h : c < 128) :
    utf8EncodeChar c = [c] := by
  simp [utf8EncodeChar, h]

theorem utf8Encode_ascii (cs : List Char) (h : ∀ c ∈ cs, c.toNat < 128) :
    utf8Encode cs = cpsOf cs := by
  induction cs with
  | nil => rfl
  | cons c rest ih =>
      have h1 : c.toNat < 128 := h c (by simp)
      have h2 := ih (fun x hx => h x (by simp [hx]))
      simp only [utf8Encode, List.map_cons, List.flatten_cons,
        utf8EncodeChar_ascii h1] at h2 ⊢
      simp [h2, cpsOf]

theorem utf8DecodeOne_ascii {b : Nat} (h : b < 128) (rest : List Nat) :
    utf8DecodeOne b rest = some (b, rest) := by
  simp [utf8DecodeOne, show b < 0x80 by omega]

theorem utf8DecodeLoop_ascii :
    ∀ fuel (bs : List Nat), bs.length ≤ fuel → (∀ b ∈ bs, b < 128) →
      utf8DecodeLoop fuel bs = some bs := by
  intro fuel
  induction fuel with
  | zero =>
      intro bs hlen _
      cases bs with
      | nil => rfl
      | cons b rest => simp at hlen
  | succ f ih =>
      intro bs hlen h
      cases bs with
      | nil => rfl
      | cons b rest =>
          have h1 : b < 128 := h b (by simp)
          have hlen' : rest.length ≤ f := by simpa using hlen
          simp only [utf8DecodeLoop, utf8DecodeOne_ascii h1]
          rw [ih rest hlen' (fun x hx => h x (by simp [hx]))]
          rfl

theorem utf8DecodeBytes_ascii (bs : List Nat) (h : ∀ b ∈ bs, b < 128) :
    utf8DecodeBytes bs = some bs :=
  utf8DecodeLoop_ascii bs.length bs le_rfl h

theorem toNat_ofNat_digit : ∀ d, d < 10 →
    (Char.ofNat (48 + d)).toNat = 48 + d := by decide

theorem natReprAux_digits :
    ∀ fuel n, n < fuel →
      ∀ c ∈ natReprAux fuel n, 48 ≤ c.toNat ∧ c.toNat ≤ 57 := by
  intro fuel
  induction fuel with
  | zero => intro n hn; omega
  | succ f ih =>
      intro n hn c hc
      by_cases h10 : n < 10
      · simp only [natReprAux, if_pos h10, List.mem_singleton] at hc
        subst hc
        have := toNat_ofNat_digit n h10
        omega
      · simp only [natReprAux, if_neg h10, List.mem_append,
          List.mem_singleton] at hc
        rcases hc with hc | rfl
        · exact ih (n / 10) (by omega) c hc
        · have := toNat_ofNat_digit (n % 10) (by omega)
          omega

theorem digitsVal_natReprAux :
    ∀ fuel n, n < fuel → digitsVal (cpsOf (natReprAux fuel n)) = n := by
  intro fuel
  induction fuel with
  | zero => intro n hn; omega
  | succ f ih =>
      intro n hn
      by_cases h10 : n < 10
      · simp only [natReprAux, if_pos h10, cpsOf, List.map_cons,
          List.map_nil, digitsVal, List.foldl_cons, List.foldl_nil,
          toNat_ofNat_digit n h10]
        omega
      · have hrec := ih (n / 10) (by omega)
        simp only [natReprAux, if_neg h10, cpsOf, List.map_append,
          List.map_cons, List.map_nil, digitsVal, List.foldl_append,
          List.foldl_cons, List.foldl_nil,
          toNat_ofNat_digit (n % 10) (by omega)]
        simp only [cpsOf, digitsVal] at hrec
        rw [hrec]
        omega

theorem natReprAux_ne_nil :
    ∀ fuel n, n < fuel → natReprAux fuel n ≠ [] := by
  intro fuel
  induction fuel with
  | zero => intro n hn; omega
  | succ f ih =>
      intro n hn
      by_cases h10 : n < 10
      · simp [natReprAux, h10]
      · simp only [natReprAux, if_neg h10]
        intro hcon
        rcases List.append_eq_nil.mp hcon with ⟨_, h2⟩
        cases h2

theorem natReprAux_head_ne_zero :
    ∀ fuel n, n < fuel → 1 ≤ n →
      ∀ c cs, natReprAux fuel n = c :: cs → c.toNat ≠ 48 := by
  intro fuel
  induction fuel with
  | zero => intro n hn; omega
  | succ f ih =>
      intro n hn h1 c cs hc
      by_cases h10 : n < 10
      · simp only [natReprAux, if_pos h10, List.cons.injEq] at hc
        rw [← hc.1]
        rw [toNat_ofNat_digit n h10]
        omega
      · simp only [natReprAux, if_neg h10] at hc
        rcases hd : natReprAux f (n / 10) with _ | ⟨c', cs'⟩
        · exact absurd hd (natReprAux_ne_nil f (n / 10) (by omega))
        · rw [hd, List.cons_append, List.cons.injEq] at hc
          rw [← hc.1]
          exact ih (n / 10) (by omega) (by omega) c' cs' hd

theorem takeDigits_append {ds : List Nat} (hds : ∀ c ∈ ds, isDigitCp c)
    {r : List Nat} (hr : ∀ c ∈ r.take 1, isDigitCp c = false) :
    takeDigits (ds ++ r) = (ds, r) := by
  induction ds with
  | nil =>
      cases r with
      | nil => rfl
      | cons c r' =>
          have := hr c (by simp)
          simp [takeDigits, this]
  | cons d ds' ih =>
      have hd : isDigitCp d := hds d (by simp)
      have := ih (fun c hc => hds c (by simp [hc]))
      simp [takeDigits, hd, this]

/-! ### Parsing the dumped cursor payload -/

theorem skipWs_of_head {c : Nat} (h : ¬(c = 32 ∨ c = 9 ∨ c = 10 ∨ c = 13))
    (r : List Nat) : skipWs (c :: r) = c :: r := by
  simp [skipWs, h]

theorem natReprChars_digits (n : Nat) :
    ∀ c ∈ cpsOf (natReprChars n), 48 ≤ c ∧ c ≤ 57 := by
  intro c hc
  rcases List.mem_map.mp hc with ⟨ch, hch, rfl⟩
  exact natReprAux_digits (n + 1) n (by omega) ch hch

theorem digitsVal_natReprChars (n : Nat) :
    digitsVal (cpsOf (natReprChars n)) = n :=
  digitsVal_natReprAux (n + 1) n (by omega)

theorem parseSign_cons {c : Nat} (h : ¬(c = 45)) (r : List Nat) :
    parseSign (c :: r) = (false, c :: r) := by
  simp [parseSign, h]

theorem parseFracPart_no {r : List Nat} (h : ∀ c ∈ r.take 1, ¬(c = 46)) :
    parseFracPart r = (none, r) := by
  cases r with
  | nil => rfl
  | cons c r' => simp [parseFracPart, h c (by simp)]

theorem parseExpPart_no {r : List Nat}
    (h : ∀ c ∈ r.take 1, ¬(c = 101) ∧ ¬(c = 69)) :
    parseExpPart r = (none, r) := by
  cases r with
  | nil => rfl
  | cons c r' =>
      have := h c (by simp)
      simp [parseExpPart, this.1, this.2]

theorem parseIntPart_natRepr (n : Nat) (r : List Nat)
    (hr : ∀ c ∈ r.take 1, isDigitCp c = false) :
    parseIntPart (cpsOf (natReprChars n) ++ r) = some (n, r) := by
  by_cases h0 : n = 0
  · subst h0
    have : cpsOf (natReprChars 0) = [48] := rfl
    rw [this]
    simp [parseIntPart, isDigitCp]
  · rcases hsh : natReprChars n with _ | ⟨c0, cs⟩
    · exact absurd hsh (natReprAux_ne_nil (n + 1) n (by omega))
    · have hall := natReprChars_digits n
      rw [hsh] at hall
      have hc0 : 48 ≤ c0.toNat ∧ c0.toNat ≤ 57 := hall c0.toNat (by simp [cpsOf])
      have hne0 : c0.toNat ≠ 48 :=
        natReprAux_head_ne_zero (n + 1) n (by omega) (by omega) c0 cs hsh
      have hdig : isDigitCp c0.toNat = true := by
        simp [isDigitCp]
        omega
      have hcps : cpsOf (c0 :: cs) = c0.toNat :: cpsOf cs := rfl
      rw [hcps, List.cons_append]
      have htake : takeDigits (c0.toNat :: (cpsOf cs ++ r))
          = (c0.toNat :: cpsOf cs, r) := by
        have h1 : ∀ c ∈ c0.toNat :: cpsOf cs, isDigitCp c = true := by
          intro c hc
          have hb := hall c (by simpa [cpsOf] using hc)
          simp [isDigitCp]
          omega
        have := takeDigits_append h1 hr
        simpa using this
      rw [parseIntPart]
      rw [if_neg (by simp [hdig]), if_neg hne0]
      simp only [htake]
      have hval : digitsVal (c0.toNat :: cpsOf cs) = n := by
        have := digitsVal_natReprChars n
        rw [hsh] at this
        simpa [cpsOf] using this
      rw [hval]

/-- `parseNumber` inverts decimal printing: the serialised integer
followed by a non-number character parses back to `jint o`. -/
theorem parseNumber_intRepr (o : Int) (r : List Nat)
    (hr : ∀ c ∈ r.take 1,
      isDigitCp c = false ∧ ¬(c = 46) ∧ ¬(c = 101) ∧ ¬(c = 69)) :
    parseNumber (cpsOf (intReprChars o) ++ r) = some (JVal.jint o, r) := by
  have hr1 : ∀ c ∈ r.take 1, isDigitCp c = false := fun c hc => (hr c hc).1
  have hfr : parseFracPart r = (none, r) :=
    parseFracPart_no (fun c hc => (hr c hc).2.1)
  have hex : parseExpPart r = (none, r) :=
    parseExpPart_no (fun c hc => ⟨(hr c hc).2.2.1, (hr c hc).2.2.2⟩)
  by_cases hneg : o < 0
  · have hchars : intReprChars o = '-' :: natReprChars (-o).toNat := by
      simp [intReprChars, hneg]
    have hcps : cpsOf (intReprChars o)
        = 45 :: cpsOf (natReprChars (-o).toNat) := by
      rw [hchars]; rfl
    rw [hcps, List.cons_append]
    have hsign : parseSign (45 :: (cpsOf (natReprChars (-o).toNat) ++ r))
        = (true, cpsOf (natReprChars (-o).toNat) ++ r) := by
      simp [parseSign]
    rw [parseNumber]
    simp only [hsign, parseIntPart_natRepr _ r hr1, hfr, hex]
    have : -((-o).toNat : Int) = o := by omega
    simp [this]
    omega
  · have hchars : intReprChars o = natReprChars o.toNat := by
      simp [intReprChars, hneg]
    rw [hchars]
    rcases hsh : natReprChars o.toNat with _ | ⟨c0, cs⟩
    · exact absurd hsh (natReprAux_ne_nil (o.toNat + 1) o.toNat (by omega))
    · have hall := natReprChars_digits o.toNat
      rw [hsh] at hall
      have hc0 : 48 ≤ c0.toNat ∧ c0.toNat ≤ 57 := hall c0.toNat (by simp [cpsOf])
      have hcps : cpsOf (c0 :: cs) = c0.toNat :: cpsOf cs := rfl
      rw [← hsh]
      have hsign : parseSign (cpsOf (natReprChars o.toNat) ++ r)
          = (false, cpsOf (natReprChars o.toNat) ++ r) := by
        rw [hsh, hcps, List.cons_append]
        exact parseSign_cons (by omega) _
      rw [parseNumber]
      simp only [hsign, parseIntPart_natRepr _ r hr1, hfr, hex]
      have : (o.toNat : Int) = o := by omega
      simp [this]

theorem dropLit_ne {p c : Nat} (h : ¬(c = p)) (ps s : List Nat) :
    dropLit (p :: ps) (c :: s) = none := by
  simp [dropLit, h]

theorem skipWs_cons32 (l : List Nat) : skipWs (32 :: l) = skipWs l := by
  simp [skipWs]

theorem parseJStr_key (f : Nat) (rest : List Nat) :
    parseJStr (f + 7) ([111, 102, 102, 115, 101, 116, 34] ++ rest)
      = some ([111, 102, 102, 115, 101, 116], rest) := by
  simp [parseJStr]

theorem parseJStr_key' (fuel : Nat) (h : 7 ≤ fuel) (rest : List Nat) :
    parseJStr fuel ([111, 102, 102, 115, 101, 116, 34] ++ rest)
      = some ([111, 102, 102, 115, 101, 116], rest) := by
  obtain ⟨k, rfl⟩ : ∃ k, fuel = k + 7 := ⟨fuel - 7, by omega⟩
  exact parseJStr_key k rest

/-- Shape facts about the printed integer: its code points start with
a digit or a minus sign, and every code point is one of those. -/
theorem intReprChars_shape (o : Int) :
    ∃ d0 tl, cpsOf (intReprChars o) = d0 :: tl ∧
      (d0 = 45 ∨ (48 ≤ d0 ∧ d0 ≤ 57)) ∧
      (∀ c ∈ tl, 48 ≤ c ∧ c ≤ 57) := by
  by_cases hneg : o < 0
  · have hchars : intReprChars o = '-' :: natReprChars (-o).toNat := by
      simp [intReprChars, hneg]
    refine ⟨45, cpsOf (natReprChars (-o).toNat), by rw [hchars]; rfl,
      Or.inl rfl, ?_⟩
    intro c hc
    exact natReprChars_digits _ c hc
  · have hchars : intReprChars o = natReprChars o.toNat := by
      simp [intReprChars, hneg]
    rcases hsh : natReprChars o.toNat with _ | ⟨c0, cs⟩
    · exact absurd hsh (natReprAux_ne_nil (o.toNat + 1) o.toNat (by omega))
    · have hall := natReprChars_digits o.toNat
      rw [hsh] at hall
      refine ⟨c0.toNat, cpsOf cs, by rw [hchars, hsh]; rfl,
        Or.inr (hall c0.toNat (by simp [cpsOf])), ?_⟩
      intro c hc
      refine hall c ?_
      rw [show cpsOf (c0 :: cs) = c0.toNat :: cpsOf cs from rfl]
      exact List.mem_cons_of_mem _ hc

/-- `_scan_once` on the printed integer followed by `}`. -/
theorem parseVal_number (f : Nat) (o : Int) :
    parseVal (f + 1) (cpsOf (intReprChars o) ++ [125])
      = some (JVal.jint o, [125]) := by
  obtain ⟨d0, tl, hsh, hd0, htl⟩ := intReprChars_shape o
  have hnum : parseNumber (cpsOf (intReprChars o) ++ [125])
      = some (JVal.jint o, [125]) := by
    refine parseNumber_intRepr o [125] ?_
    intro c hc
    simp at hc
    subst hc
    refine ⟨by simp [isDigitCp], by omega, by omega, by omega⟩
  rw [hsh] at hnum ⊢
  rw [List.cons_append] at hnum ⊢
  rw [parseVal]
  rw [if_neg (by omega : ¬(d0 = 34)), if_neg (by omega : ¬(d0 = 123)),
    if_neg (by omega : ¬(d0 = 91))]
  rw [show asciiCps "null" = 110 :: [117, 108, 108] from rfl,
    dropLit_ne (by omega : ¬(d0 = 110)),
    show asciiCps "true" = 116 :: [114, 117, 101] from rfl,
    dropLit_ne (by omega : ¬(d0 = 116)),
    show asciiCps "false" = 102 :: [97, 108, 115, 101] from rfl,
    dropLit_ne (by omega : ¬(d0 = 102)),
    hnum]

/-- Parsing the member list of the dumped payload. -/
theorem parseMembers_dumps (f : Nat) (o : Int) :
    parseMembers (f + 2)
      ([111, 102, 102, 115, 101, 116, 34] ++
        (58 :: 32 :: (cpsOf (intReprChars o) ++ [125]))) []
      = some (JVal.jobj [([111, 102, 102, 115, 101, 116], JVal.jint o)],
          []) := by
  rw [parseMembers]
  have hlen : ([111, 102, 102, 115, 101, 116, 34] ++
      (58 :: 32 :: (cpsOf (intReprChars o) ++ [125]))).length + 1
      = ((58 :: 32 :: (cpsOf (intReprChars o) ++ [125])).length + 1) + 7 := by
    simp
  rw [hlen, parseJStr_key]
  obtain ⟨d0, tl, hsh, hd0, _⟩ := intReprChars_shape o
  have hskip2 : skipWs (cpsOf (intReprChars o) ++ [125])
      = cpsOf (intReprChars o) ++ [125] := by
    rw [hsh, List.cons_append]
    exact skipWs_of_head (by omega) _
  simp only [skipWs_of_head (by omega : ¬((58:Nat) = 32 ∨ (58:Nat) = 9 ∨
    (58:Nat) = 10 ∨ (58:Nat) = 13)), skipWs_cons32, hskip2,
    parseVal_number f o]
  rfl

theorem parseVal_dumps (f : Nat) (o : Int) :
    parseVal (f + 4) (cpsOf (jsonDumpsOffset o))
      = some (JVal.jobj [([111, 102, 102, 115, 101, 116], JVal.jint o)],
          []) := by
  have hshape : cpsOf (jsonDumpsOffset o)
      = 123 :: 34 :: ([111, 102, 102, 115, 101, 116, 34] ++
          (58 :: 32 :: (cpsOf (intReprChars o) ++ [125]))) := by
    simp only [jsonDumpsOffset, cpsOf, List.map_append]
    rfl
  rw [hshape, parseVal]
  rw [if_neg (by omega : ¬((123:Nat) = 34)), if_pos rfl]
  have hskip : skipWs (34 :: ([111, 102, 102, 115, 101, 116, 34] ++
      (58 :: 32 :: (cpsOf (intReprChars o) ++ [125]))))
      = 34 :: ([111, 102, 102, 115, 101, 116, 34] ++
          (58 :: 32 :: (cpsOf (intReprChars o) ++ [125]))) :=
    skipWs_of_head (by omega) _
  rw [hskip, parseObjBody]
  exact parseMembers_dumps f o

/-- `json.loads` inverts `json.dumps({"offset": o})`. -/
theorem jsonLoads_dumps (o : Int) :
    jsonLoads (cpsOf (jsonDumpsOffset o))
      = some (JVal.jobj [([111, 102, 102, 115, 101, 116], JVal.jint o)]) := by
  unfold jsonLoads
  have hshape : cpsOf (jsonDumpsOffset o)
      = 123 :: 34 :: ([111, 102, 102, 115, 101, 116, 34] ++
          (58 :: 32 :: (cpsOf (intReprChars o) ++ [125]))) := by
    simp only [jsonDumpsOffset, cpsOf, List.map_append]
    rfl
  have hskip : skipWs (cpsOf (jsonDumpsOffset o))
      = cpsOf (jsonDumpsOffset o) := by
    rw [hshape]
    exact skipWs_of_head (by omega) _
  rw [hskip]
  have hlen : (cpsOf (jsonDumpsOffset o)).length + 1
      = ((cpsOf (jsonDumpsOffset o)).length - 3) + 4 := by
    rw [hshape]
    simp
  rw [hlen, parseVal_dumps ((cpsOf (jsonDumpsOffset o)).length - 3) o]
  rfl

theorem jsonDumpsOffset_ascii (o : Int) :
    ∀ c ∈ jsonDumpsOffset o, c.toNat < 128 := by
  intro c hc
  simp only [jsonDumpsOffset, List.mem_append] at hc
  rcases hc with (hc | hc) | hc
  · fin_cases hc <;> decide
  · by_cases hneg : o < 0
    · rw [show intReprChars o = '-' :: natReprChars (-o).toNat by
        simp [intReprChars, hneg]] at hc
      rcases List.mem_cons.mp hc with rfl | hc
      · decide
      · have := natReprAux_digits ((-o).toNat + 1) (-o).toNat (by omega) c hc
        omega
    · rw [show intReprChars o = natReprChars o.toNat by
        simp [intReprChars, hneg]] at hc
      have := natReprAux_digits (o.toNat + 1) o.toNat (by omega) c hc
      omega
  · fin_cases hc; decide

theorem b64encodeBytes_ne_nil :
    ∀ bs : List Nat, bs ≠ [] → b64encodeBytes bs ≠ [] := by
  intro bs h
  match bs, h with
  | [a], _ => simp [b64encodeBytes_one]
  | [a, b], _ => simp [b64encodeBytes_two]
  | a :: b :: c :: rest, _ => simp [b64encodeBytes_cons3]

/-- The cursor round trip: decoding an encoded offset yields the same
Python int. -/
theorem decodeCursorVal_encode (o : Int) :
    decodeCursorVal (some (encodeCursor o)) = JVal.jint o := by
  have hascii := jsonDumpsOffset_ascii o
  have hbytes : utf8Encode (jsonDumpsOffset o) = cpsOf (jsonDumpsOffset o) :=
    utf8Encode_ascii _ hascii
  have hlt : ∀ b ∈ cpsOf (jsonDumpsOffset o), b < 128 := by
    intro b hb
    rcases List.mem_map.mp hb with ⟨ch, hch, rfl⟩
    exact hascii ch hch
  have hshape : cpsOf (jsonDumpsOffset o)
      = 123 :: 34 :: ([111, 102, 102, 115, 101, 116, 34] ++
          (58 :: 32 :: (cpsOf (intReprChars o) ++ [125]))) := by
    simp only [jsonDumpsOffset, cpsOf, List.map_append]
    rfl
  have hne : ¬(encodeCursor o = "") := by
    intro hcon
    have : b64encodeBytes (utf8Encode (jsonDumpsOffset o)) = [] := by
      have := congrArg String.data hcon
      simpa [encodeCursor] using this
    refine b64encodeBytes_ne_nil _ ?_ this
    rw [hbytes, hshape]
    simp
  have hdata : (encodeCursor o).data
      = b64encodeBytes (cpsOf (jsonDumpsOffset o)) := by
    rw [encodeCursor, hbytes]
  rw [decodeCursorVal]
  rw [if_neg hne, hdata,
    b64decodePy_encode _ (fun x hx => by have := hlt x hx; omega)]
  simp only [utf8DecodeBytes_ascii _ hlt, jsonLoads_dumps o]
  rfl

theorem pyInsert_perm (l : List α) (i : Int) (a : α) :
    (pyInsert l i a).Perm (a :: l) := by
  unfold pyInsert
  apply List.perm_insertIdx
  by_cases h : i < 0 <;> simp [h] <;> omega

theorem mem_pyInsert {l : List α} {i : Int} {a x : α} :
    x ∈ pyInsert l i a ↔ x = a ∨ x ∈ l := by
  rw [(pyInsert_perm l i a).mem_iff]
  simp

/-- Folding `pyInsert` over key/value pairs permutes the base list
extended with the inserted values. -/
theorem foldl_pyInsert_perm (pairs : List (Int × α)) :
    ∀ base : List α,
      (pairs.foldl
        (fun result pv => pyInsert result (min pv.1 (result.length : Int)) pv.2)
        base).Perm (base ++ pairs.map Prod.snd) := by
  induction pairs with
  | nil => intro base; simp
  | cons p ps ih =>
      intro base
      refine (ih _).trans ?_
      have h1 := pyInsert_perm base (min p.1 (base.length : Int)) p.2
      calc (pyInsert base (min p.1 (base.length : Int)) p.2 ++ ps.map Prod.snd)
          |>.Perm ((p.2 :: base) ++ ps.map Prod.snd) :=
            h1.append_right _
        _ = p.2 :: (base ++ ps.map Prod.snd) := rfl
        _ |>.Perm (base ++ p.2 :: ps.map Prod.snd) :=
            (List.perm_middle).symm
        _ = base ++ (p :: ps).map Prod.snd := rfl

theorem upsert_of_not_mem [DecidableEq κ] {k : κ} (v : α)
    {l : List (κ × α)} (h : k ∉ l.map Prod.fst) :
    upsert k v l = l ++ [(k, v)] := by
  induction l with
  | nil => rfl
  | cons p ps ih =>
      simp only [List.map_cons, List.mem_cons] at h
      push_neg at h
      cases p with
      | mk k' v' =>
          simp only [upsert, if_neg (by simpa using h.1)]
          rw [ih h.2, List.cons_append]

theorem mem_map_snd_upsert [DecidableEq κ] {k : κ} {v : α}
    {l : List (κ × α)} {x : α} (h : x ∈ (upsert k v l).map Prod.snd) :
    x = v ∨ x ∈ l.map Prod.snd := by
  induction l with
  | nil => simpa [upsert] using h
  | cons p ps ih =>
      cases p with
      | mk k' v' =>
          by_cases hk : k = k'
          · simp only [upsert, if_pos hk] at h
            simp only [List.map_cons, List.mem_cons] at h ⊢
            tauto
          · simp only [upsert, if_neg hk] at h
            simp only [List.map_cons, List.mem_cons] at h ⊢
            rcases h with h | h
            · tauto
            · rcases ih h with h' | h' <;> tauto

theorem keys_upsert_subset [DecidableEq κ] {k : κ} {v : α}
    {l : List (κ × α)} {x : κ} (h : x ∈ (upsert k v l).map Prod.fst) :
    x = k ∨ x ∈ l.map Prod.fst := by
  induction l with
  | nil => simpa [upsert] using h
  | cons p ps ih =>
      cases p with
      | mk k' v' =>
          by_cases hk : k = k'
          · simp only [upsert, if_pos hk] at h
            simp only [List.map_cons, List.mem_cons] at h ⊢
            subst hk
            tauto
          · simp only [upsert, if_neg hk] at h
            simp only [List.map_cons, List.mem_cons] at h ⊢
            rcases h with h | h
            · tauto
            · rcases ih h with h' | h' <;> tauto

/-- Values of the `sortStable` of an association list are a
permutation of the original values. -/
theorem sortStable_map_snd_perm (le : κ × α → κ × α → Bool)
    (l : List (κ × α)) :
    ((sortStable le l).map Prod.snd).Perm (l.map Prod.snd) :=
  (sortStable_perm le l).map Prod.snd

/-- Every element of `applyEditorialBoosts scored config` comes from
`scored`. -/
theorem mem_applyEditorialBoosts {scored : List ScoredVideo}
    {config : TenantRankingRules} {x : ScoredVideo}
    (h : x ∈ applyEditorialBoosts scored config) : x ∈ scored := by
  unfold applyEditorialBoosts at h
  by_cases hemp : config.editorial_boosts = []
  · rwa [if_pos hemp] at h
  · rw [if_neg hemp] at h
    set step := fun (acc : List (Int × ScoredVideo) × List ScoredVideo)
        (item : ScoredVideo) =>
      match config.editorial_boosts.lookup item.video.id with
      | some position => (upsert position item acc.1, acc.2)
      | none => (acc.1, acc.2 ++ [item]) with hstep
    have key : ∀ (l : List ScoredVideo)
        (acc : List (Int × ScoredVideo) × List ScoredVideo),
        ∀ y, (y ∈ (l.foldl step acc).1.map Prod.snd →
            y ∈ acc.1.map Prod.snd ∨ y ∈ l) ∧
          (y ∈ (l.foldl step acc).2 → y ∈ acc.2 ∨ y ∈ l) := by
      intro l
      induction l with
      | nil => intro acc y; constructor <;> (intro hy; simp_all)
      | cons a as ih =>
          intro acc y
          constructor
          · intro hy
            rw [List.foldl_cons] at hy
            rcases (ih (step acc a) y).1 hy with hy' | hy'
            · rw [hstep] at hy'
              rcases hlk : config.editorial_boosts.lookup a.video.id with
                _ | pos
              · simp only [hlk] at hy'
                exact Or.inl hy'
              · simp only [hlk] at hy'
                rcases mem_map_snd_upsert hy' with rfl | hy''
                · exact Or.inr (by simp)
                · exact Or.inl hy''
            · exact Or.inr (by simp [hy'])
          · intro hy
            rw [List.foldl_cons] at hy
            rcases (ih (step acc a) y).2 hy with hy' | hy'
            · rw [hstep] at hy'
              rcases hlk : config.editorial_boosts.lookup a.video.id with
                _ | pos
              · simp only [hlk, List.mem_append, List.mem_singleton] at hy'
                rcases hy' with hy' | rfl
                · exact Or.inl hy'
                · exact Or.inr (by simp)
              · simp only [hlk] at hy'
                exact Or.inl hy'
            · exact Or.inr (by simp [hy'])
    have hperm := (foldl_pyInsert_perm
      (sortStable (fun a b => a.1 ≤ b.1) (scored.foldl step ([], [])).1)
      (scored.foldl step ([], [])).2).mem_iff.mp h
    rcases List.mem_append.mp hperm with hx | hx
    · rcases (key scored ([], []) x).2 hx with hx' | hx'
      · simp at hx'
      · exact hx'
    · have hx' := (sortStable_map_snd_perm _ _).mem_iff.mp hx
      rcases (key scored ([], []) x).1 hx' with hx'' | hx''
      · simp at hx''
      · exact hx''

theorem pySlice_nonneg (l : List α) {i j : Int} (hi : 0 ≤ i) (hj : 0 ≤ j) :
    pySlice l i j = (l.drop i.toNat).take (j.toNat - i.toNat) := by
  dsimp only [pySlice]
  rw [if_neg (not_lt.mpr hi), if_neg (not_lt.mpr hj)]
  by_cases hin : i ≤ (l.length : Int)
  · rw [min_eq_left hin]
    by_cases hjn : j ≤ (l.length : Int)
    · rw [min_eq_left hjn]
    · rw [min_eq_right (le_of_not_le hjn)]
      rw [List.take_of_length_le, List.take_of_length_le]
      · rw [List.length_drop]
        omega
      · rw [List.length_drop]
        omega
  · rw [min_eq_right (le_of_not_le hin)]
    rw [List.drop_eq_nil_of_le (by omega),
      List.drop_eq_nil_of_le (by omega)]
    simp

/-- `rank` on a cursor produced by `_encode_cursor` runs at exactly
the encoded offset. -/
theorem rank_encodeCursor (now : ℚ) (candidates : List VideoMetadata)
    (user : UserSignals) (config : TenantRankingRules) (limit o : Int) :
    rank now candidates user config limit (some (encodeCursor o))
      = Except.ok (rankAt now candidates user config limit o) := by
  unfold rank
  rw [decodeCursorVal_encode]

/-- `rank` without a cursor runs at offset 0. -/
theorem rank_none (now : ℚ) (candidates : List VideoMetadata)
    (user : UserSignals) (config : TenantRankingRules) (limit : Int) :
    rank now candidates user config limit none
      = Except.ok (rankAt now candidates user config limit 0) := rfl

theorem mem_pySlice {l : List α} {i j : Int} {x : α}
    (h : x ∈ pySlice l i j) : x ∈ l := by
  unfold pySlice at h
  exact List.mem_of_mem_drop (List.mem_of_mem_take h)

theorem isMaturityAllowed_empty_cap (r : String) :
    isMaturityAllowed r "" = true := by
  unfold isMaturityAllowed
  have h2 : ratingIndex "" = none := by decide
  rw [h2]
  rcases ratingIndex r with _ | i <;> rfl

/-- Every `rank` success is `rankAt` at some decoded integer offset. -/
theorem rank_ok_offset {now : ℚ} {candidates : List VideoMetadata}
    {user : UserSignals} {config : TenantRankingRules} {limit : Int}
    {cursor : Option String}
    {out : List FeedItem × Option String × Bool}
    (hok : rank now candidates user config limit cursor = Except.ok out) :
    ∃ offset : Int, out = rankAt now candidates user config limit offset := by
  unfold rank at hok
  rcases hdec : decodeCursorVal cursor with _ | b | n | q | _ | ng | s | xs | kvs <;>
    rw [hdec] at hok <;> first
    | (cases hok; exact ⟨_, rfl⟩)
    | (cases hok)

/-- Membership provenance through filter → score → sort → editorial. -/
theorem mem_rankPipeline {now : ℚ} {candidates : List VideoMetadata}
    {user : UserSignals} {config : TenantRankingRules} {sv : ScoredVideo}
    (h : sv ∈ rankPipeline now candidates user config) :
    sv.video ∈ filterCandidates candidates user config := by
  unfold rankPipeline at h
  have h1 := mem_applyEditorialBoosts h
  have h2 := (sortStable_perm scoreLe _).mem_iff.mp h1
  unfold scoreCandidates at h2
  rcases List.mem_map.mp h2 with ⟨v, hv, rfl⟩
  simpa using hv

theorem toFeedItems_append (now : ℚ) (l₁ l₂ : List ScoredVideo) :
    toFeedItems now (l₁ ++ l₂) = toFeedItems now l₁ ++ toFeedItems now l₂ := by
  simp [toFeedItems]

/-- One page starting at a non-negative offset is the `limit`-sized
take of the dropped pipeline. -/
theorem rankAt_items (now : ℚ) (candidates : List VideoMetadata)
    (user : UserSignals) (config : TenantRankingRules)
    {limit : Int} (hlim : 0 ≤ limit) (o : Nat) :
    (rankAt now candidates user config limit o).1
      = toFeedItems now
          (((rankPipeline now candidates user config).drop o).take
            limit.toNat) := by
  dsimp only [rankAt]
  rw [pySlice_nonneg _ (by omega) (by omega)]
  congr 2
  omega

/-- Following the emitted cursors from offset `o` collects exactly
the tail of the pipeline, given enough pages. -/
theorem collectPages_encode (now : ℚ) (candidates : List VideoMetadata)
    (user : UserSignals) (config : TenantRankingRules)
    {limit : Int} (hlim : 1 ≤ limit) :
    ∀ (fuel : Nat) (o : Nat),
      (rankPipeline now candidates user config).length
          ≤ o + fuel * limit.toNat →
      collectPages now candidates user config limit fuel
          (some (encodeCursor o))
        = toFeedItems now ((rankPipeline now candidates user config).drop o) := by
  intro fuel
  induction fuel with
  | zero =>
      intro o hbound
      rw [collectPages, List.drop_eq_nil_of_le (by simpa using hbound)]
      rfl
  | succ f ih =>
      intro o hbound
      rw [collectPages, rank_encodeCursor]
      by_cases hmore : (o : Int) + limit
          < ((rankPipeline now candidates user config).length : Int)
      · have hdec : (rankAt now candidates user config limit o).2.2 = true := by
          dsimp only [rankAt]
          simpa using hmore
        have hnext : (rankAt now candidates user config limit o).2.1
            = some (encodeCursor ((o : Int) + limit)) := by
          dsimp only [rankAt]
          simp [hmore]
        have hsplit : (rankAt now candidates user config limit o)
            = ((rankAt now candidates user config limit o).1,
               (rankAt now candidates user config limit o).2.1,
               (rankAt now candidates user config limit o).2.2) := rfl
        rw [hsplit, hdec, hnext]
        simp only [if_true]
        have hcast : (o : Int) + limit = ((o + limit.toNat : Nat) : Int) := by
          omega
        have hb : (f + 1) * limit.toNat = f * limit.toNat + limit.toNat :=
          Nat.succ_mul f limit.toNat
        rw [rankAt_items now candidates user config (by omega) o, hcast,
          ih (o + limit.toNat) (by omega)]
        rw [← toFeedItems_append]
        congr 1
        rw [← List.drop_drop]
        exact List.take_append_drop _ _
      · have hdec : (rankAt now candidates user config limit o).2.2 = false := by
          dsimp only [rankAt]
          simpa using hmore
        have hsplit : (rankAt now candidates user config limit o)
            = ((rankAt now candidates user config limit o).1,
               (rankAt now candidates user config limit o).2.1,
               (rankAt now candidates user config limit o).2.2) := rfl
        rw [hsplit, hdec]
        simp only [Bool.false_eq_true, if_false]
        rw [rankAt_items now candidates user config (by omega) o]
        rw [List.take_of_length_le]
        rw [List.length_drop]
        omega

theorem natToBytesLE_length : ∀ (k n : Nat), (natToBytesLE k n).length = k := by
  intro k
  induction k with
  | zero => intro n; rfl
  | succ k ih =>
      intro n
      unfold natToBytesLE
      simp [ih]

theorem md5Bytes_length (msg : List Nat) : (md5Bytes msg).length = 16 := by
  unfold md5Bytes
  simp [natToBytesLE_length]

theorem foldr_hexpair_length (l : List Nat) (acc : List Char) :
    (l.foldr (fun b acc =>
      hexDigitChar (b / 16) :: hexDigitChar (b % 16) :: acc) acc).length
    = 2 * l.length + acc.length := by
  induction l with
  | nil => simp
  | cons b bs ih => simp [ih]; ring

theorem md5Hex_length (msg : List Nat) : (md5Hex msg).data.length = 32 := by
  unfold md5Hex
  rw [foldr_hexpair_length, md5Bytes_length]
  rfl

theorem hexDigitChar_mem (n : Nat) : hexDigitChar n ∈ hexDigits := by
  unfold hexDigitChar hexDigits
  by_cases h : n < ("0123456789abcdef".data).length
  · rw [List.getD_eq_getElem _ _ h]
    exact List.getElem_mem h
  · rw [List.getD_eq_default _ _ (le_of_not_lt h)]
    decide

theorem foldr_hexpair_mem (l : List Nat) (c : Char)
    (hc : c ∈ l.foldr (fun b acc =>
      hexDigitChar (b / 16) :: hexDigitChar (b % 16) :: acc) []) :
    c ∈ hexDigits := by
  induction l with
  | nil => cases hc
  | cons b bs ih =>
      simp only [List.foldr_cons, List.mem_cons] at hc
      rcases hc with h | h | h
      · rw [h]; exact hexDigitChar_mem _
      · rw [h]; exact hexDigitChar_mem _
      · exact ih h

theorem md5Hex_mem (msg : List Nat) (c : Char)
    (hc : c ∈ (md5Hex msg).data) : c ∈ hexDigits := by
  unfold md5Hex at hc
  exact foldr_hexpair_mem _ _ hc

theorem etagOf_nonempty (items : List FeedItem) (hne : items ≠ []) :
    etagOf items = some ("W/\"" ++
      String.mk (((md5Hex (utf8Encode
        (String.join (items.map (fun i => i.id))).data)).data).take 16)
      ++ "\"") := by
  unfold etagOf
  rw [if_neg]
  simp [hne]

theorem wrapped_ne_empty (s : String) : ("W/\"" ++ s ++ "\"") ≠ "" := by
  intro h
  have := congrArg String.data h
  simp at this

theorem routeFeedResult_304 (fr : FeedResponse) (inm : Option String)
    (e : String) (hetag : etagOf fr.items = some e) (hee : e ≠ "")
    (hinm : inm = some e) :
    routeFeedResult fr inm
      = { status := 304, etag_header := none, has_body := false,
          cache_control := none, vary := none, x_personalized := none } := by
  unfold routeFeedResult
  rw [hetag, hinm]
  dsimp only
  rw [if_pos]
  simp [hee]

theorem routeFeedResult_not304 (fr : FeedResponse) (inm : Option String)
    (h : ((match inm with | some s => !(s = "") | none => false) &&
          (etagOf fr.items).isSome && (inm == etagOf fr.items)) = false) :
    routeFeedResult fr inm
      = { status := 200
          etag_header := etagOf fr.items
          has_body := true
          cache_control := some
            (if fr.is_personalized ∧ ¬ fr.degraded
             then "private, max-age=30"
             else "public, max-age=30, stale-while-revalidate=15")
          vary := some
            (if fr.is_personalized ∧ ¬ fr.degraded
             then "X-User-Hash" else "Accept-Encoding")
          x_personalized := some
            (if fr.is_personalized then "true" else "false") } := by
  unfold routeFeedResult
  dsimp only
  rw [if_neg]
  rw [h]
  simp

theorem lookup_upsert [DecidableEq κ] (k : κ) (v : α) :
    ∀ l : List (κ × α), (upsert k v l).lookup k = some v := by
  intro l
  induction l with
  | nil => simp [upsert, List.lookup]
  | cons kv rest ih =>
      unfold upsert
      by_cases h : k = kv.1
      · rw [if_pos h]
        simp [List.lookup]
      · rw [if_neg h]
        simp only [List.lookup]
        rw [show (k == kv.1) = false from beq_eq_false_iff_ne.mpr h]
        exact ih

theorem lookup_filter_ne (key : String) :
    ∀ l : List (String × CacheEntry V),
      (l.filter (fun kv => !(kv.1 = key))).lookup key = none := by
  intro l
  induction l with
  | nil => rfl
  | cons kv rest ih =>
      rw [List.filter_cons]
      by_cases h : kv.1 = key
      · rw [show (!decide (kv.1 = key)) = false by simp [h]]
        simpa using ih
      · rw [show (!decide (kv.1 = key)) = true by simp [h]]
        rw [if_pos rfl]
        simp only [List.lookup]
        rw [show (key == kv.1) = false from
          beq_eq_false_iff_ne.mpr (fun hc => h hc.symm)]
        exact ih

/-! ## Claim theorems -/

/-- C2 counterexample: two candidates with equal `final_score` do NOT
come out in id-ascending order — the sort
`scored.sort(key=..., reverse=True)` has no id tie-break, so ties keep
the input order.  With input `[b, a]` (both scoring 100) the ranked
output is `[b, a]`, not `[a, b]`. -/
theorem C2_counterexample :
    ((rankPipeline 0 [c2v "b", c2v "a"] c2user c2cfg).map
        fun sv => sv.video.id) = ["b", "a"] ∧
    ((rankPipeline 0 [c2v "b", c2v "a"] c2user c2cfg).map
        fun sv => sv.final_score) = [100, 100] := by
  decide

/-- C2 amended: after scoring, the surviving candidates are sorted by
`final_score` descending, and candidates with equal `final_score`
appear in their relative order in the (filtered, scored) input — the
CPython sort is stable — not in id-ascending order. -/
theorem C2_amended (now : ℚ) (candidates : List VideoMetadata)
    (user : UserSignals) (config : TenantRankingRules) :
    (sortScored (scoreCandidates now (filterCandidates candidates user config)
        user config)).Pairwise
      (fun x y => y.final_score ≤ x.final_score) ∧
    ∀ q : ℚ,
      (sortScored (scoreCandidates now (filterCandidates candidates user config)
          user config)).filter (fun sv => decide (sv.final_score = q))
        = (scoreCandidates now (filterCandidates candidates user config)
            user config).filter (fun sv => decide (sv.final_score = q)) := by
  constructor
  · have := @sortStable_pairwise _ scoreLe
      (fun x y z hxy hyz => by
        simp only [scoreLe, decide_eq_true_eq] at hxy hyz ⊢
        exact le_trans hyz hxy)
      (fun x y => by
        simp only [scoreLe]
        rcases le_total y.final_score x.final_score with h | h
        · exact Or.inl (by simpa using h)
        · exact Or.inr (by simpa using h))
      (scoreCandidates now (filterCandidates candidates user config) user config)
    exact this.imp (by simp [scoreLe])
  · intro q
    exact sortStable_filter_eq
      (fun x y hx hy => by
        simp only [decide_eq_true_eq] at hx hy
        simp [scoreLe, hx, hy])
      _

/-- C3 counterexample: when two editorial ids map to the same
position, one is dropped, not placed in a later slot.  With scored
order `[A, B]` (A scores higher) and `editorial_boosts = {A: 0, B: 0}`,
the position-keyed dict keeps only B, and A vanishes from the
pre-pagination sequence. -/
theorem C3_counterexample :
    ((rankPipeline 0 [c3vA, c3vB] c3user c3cfgSame).map
      fun sv => sv.video.id) = ["B"] := by
  decide

/-- The fold of `_apply_editorial_boosts` that splits scored items
into the position dict and the remaining list: as long as no position
collides (with the keys already in the accumulator or among the
remaining editorial items), nothing is overwritten, so the dict's
values and the remaining list together are a permutation of the
input. -/
theorem editorialSplit_perm (config : TenantRankingRules) :
    ∀ (l : List ScoredVideo)
      (acc : List (Int × ScoredVideo) × List ScoredVideo),
      ((acc.1.map Prod.fst) ++ editorialPositions l config).Nodup →
      (((l.foldl
          (fun (acc : List (Int × ScoredVideo) × List ScoredVideo) item =>
            match config.editorial_boosts.lookup item.video.id with
            | some position => (upsert position item acc.1, acc.2)
            | none => (acc.1, acc.2 ++ [item]))
          acc).1.map Prod.snd ++
        (l.foldl
          (fun (acc : List (Int × ScoredVideo) × List ScoredVideo) item =>
            match config.editorial_boosts.lookup item.video.id with
            | some position => (upsert position item acc.1, acc.2)
            | none => (acc.1, acc.2 ++ [item]))
          acc).2).Perm
      ((acc.1.map Prod.snd ++ acc.2) ++ l)) := by
  intro l
  induction l with
  | nil =>
      intro acc _
      simp
  | cons a as ih =>
      intro acc hnd
      rw [List.foldl_cons]
      rcases hlk : config.editorial_boosts.lookup a.video.id with _ | p
      · have hnd' : (((acc.1, acc.2 ++ [a]).1.map Prod.fst)
            ++ editorialPositions as config).Nodup := by
          simpa [editorialPositions, List.filterMap_cons, hlk] using hnd
        have hstep := ih (acc.1, acc.2 ++ [a]) hnd'
        refine hstep.trans ?_
        have : (acc.1.map Prod.snd ++ (acc.2 ++ [a])) ++ as
            = (acc.1.map Prod.snd ++ acc.2) ++ a :: as := by
          simp [List.append_assoc]
        rw [this]
      · have hps : editorialPositions (a :: as) config
            = p :: editorialPositions as config := by
          simp [editorialPositions, List.filterMap_cons, hlk]
        rw [hps] at hnd
        have hfresh : p ∉ acc.1.map Prod.fst := by
          intro hmem
          have := (List.nodup_append.mp hnd).2.2
          exact this hmem (by simp)
        have hup := upsert_of_not_mem a hfresh
        have hnd' : (((upsert p a acc.1, acc.2).1.map Prod.fst)
            ++ editorialPositions as config).Nodup := by
          rw [hup, List.map_append, List.append_assoc]
          simpa using hnd
        have hstep := ih (upsert p a acc.1, acc.2) hnd'
        refine hstep.trans ?_
        have hval : (upsert p a acc.1, acc.2).1.map Prod.snd
            = acc.1.map Prod.snd ++ [a] := by
          simp [hup]
        rw [hval]
        have h1 : (acc.1.map Prod.snd ++ [a] ++ acc.2)
            = acc.1.map Prod.snd ++ a :: acc.2 := by
          simp
        rw [h1]
        refine ((List.perm_middle).append_right as).trans ?_
        exact (List.perm_middle).symm

/-- C3 amended: `_apply_editorial_boosts` extracts the scored items
carrying an editorial boost into a position-keyed dict and reinserts
them in ascending position order at `min(p, len)`; since the dict
overwrites on key collision, no editorial item is dropped exactly when
the target positions of the editorial items present are pairwise
distinct — then the pre-pagination sequence is a permutation of the
scored input.  (With a collision, the later item in score order wins
and the other is dropped, as the counterexample shows.) -/
theorem C3_amended (scored : List ScoredVideo) (config : TenantRankingRules)
    (hnd : (editorialPositions scored config).Nodup) :
    (applyEditorialBoosts scored config).Perm scored := by
  unfold applyEditorialBoosts
  by_cases hemp : config.editorial_boosts = []
  · rw [if_pos hemp]
  · rw [if_neg hemp]
    have hsplit := editorialSplit_perm config scored ([], [])
      (by simpa using hnd)
    have h1 := foldl_pyInsert_perm
      (sortStable (fun a b => a.1 ≤ b.1)
        (scored.foldl
          (fun (acc : List (Int × ScoredVideo) × List ScoredVideo) item =>
            match config.editorial_boosts.lookup item.video.id with
            | some position => (upsert position item acc.1, acc.2)
            | none => (acc.1, acc.2 ++ [item]))
          ([], [])).1)
      (scored.foldl
        (fun (acc : List (Int × ScoredVideo) × List ScoredVideo) item =>
          match config.editorial_boosts.lookup item.video.id with
          | some position => (upsert position item acc.1, acc.2)
          | none => (acc.1, acc.2 ++ [item]))
        ([], [])).2
    refine h1.trans ?_
    refine (List.Perm.append_left _ (sortStable_map_snd_perm _ _)).trans ?_
    refine List.perm_append_comm.trans ?_
    simpa using hsplit

/-- Witness for C3 amended: with distinct editorial positions
`{A: 0, B: 1}` nothing is dropped. -/
theorem C3_amended_witness :
    (editorialPositions c3scored c3cfgDistinct).Nodup ∧
      (applyEditorialBoosts c3scored c3cfgDistinct).Perm c3scored :=
  ⟨by decide, C3_amended c3scored c3cfgDistinct (by decide)⟩

/-- C4 counterexample: the base64 cursor of `{"offset": -1}` decodes
to the Python int `-1`, not 0, and the resulting page is not the
first page; and a cursor carrying `{"offset": 1.5}` makes `rank`
raise a `TypeError` at the slice instead of yielding the first
page. -/
theorem C4_counterexample :
    decodeCursorVal (some "eyJvZmZzZXQiOiAtMX0=") = JVal.jint (-1) ∧
    rank 0 c4cands c4user c4cfg 3 (some "eyJvZmZzZXQiOiAtMX0=")
      ≠ rank 0 c4cands c4user c4cfg 3 none ∧
    rank 0 c4cands c4user c4cfg 3 (some "eyJvZmZzZXQiOiAxLjV9")
      = Except.error RankError.typeError := by
  refine ⟨rfl, by decide, by decide⟩

/-- C4 amended: a missing cursor yields offset 0, an encoded offset
decodes back to itself (so a cursor carrying a negative integer
offset yields that negative offset, i.e. a Python negative-index
slice, not the first page), any cursor whose decoded offset is a
Python int is accepted without error, and a cursor whose decoded
offset is neither an int nor a bool makes `rank` raise `TypeError`. -/
theorem C4_amended (now : ℚ) (candidates : List VideoMetadata)
    (user : UserSignals) (config : TenantRankingRules) (limit : Int) :
    decodeCursorVal none = JVal.jint 0 ∧
    (∀ o : Int, decodeCursorVal (some (encodeCursor o)) = JVal.jint o) ∧
    (∀ (cursor : Option String) (n : Int),
      decodeCursorVal cursor = JVal.jint n →
      rank now candidates user config limit cursor
        = Except.ok (rankAt now candidates user config limit n)) ∧
    (∀ cursor : Option String,
      (∀ n : Int, ¬ decodeCursorVal cursor = JVal.jint n) →
      (∀ b : Bool, ¬ decodeCursorVal cursor = JVal.jbool b) →
      rank now candidates user config limit cursor
        = Except.error RankError.typeError) := by
  refine ⟨rfl, decodeCursorVal_encode, ?_, ?_⟩
  · intro cursor n h
    unfold rank
    rw [h]
  · intro cursor h1 h2
    unfold rank
    rcases hdec : decodeCursorVal cursor with _ | b | n | q | _ | ng | s | xs | kvs
    · rfl
    · exact absurd hdec (h2 b)
    · exact absurd hdec (h1 n)
    all_goals rfl

/-- Witness for C4 amended: feeding back the cursor that encodes
offset 1 resumes at offset 1. -/
theorem C4_amended_witness :
    rank 0 c4cands c4user c4cfg 3 (some (encodeCursor 1))
      = Except.ok (rankAt 0 c4cands c4user c4cfg 3 1) :=
  (C4_amended 0 c4cands c4user c4cfg 3).2.2.1 (some (encodeCursor 1)) 1 rfl

/-- C5: pagination.  `has_more` is true exactly when the
post-editorial sequence is longer than `offset + limit`; in that case
`next_cursor` encodes `offset + limit` and is otherwise absent;
feeding an emitted cursor back resumes at the encoded offset; and
concatenating successive pages (following the cursors) equals the
whole post-editorial sequence materialised at once. -/
theorem C5_pagination (now : ℚ) (candidates : List VideoMetadata)
    (user : UserSignals) (config : TenantRankingRules)
    (limit : Int) (hlim : 1 ≤ limit) :
    (∀ offset : Int,
      ((rankAt now candidates user config limit offset).2.2 = true
        ↔ offset + limit
            < ((rankPipeline now candidates user config).length : Int)) ∧
      (rankAt now candidates user config limit offset).2.1
        = (if offset + limit
              < ((rankPipeline now candidates user config).length : Int)
           then some (encodeCursor (offset + limit)) else none)) ∧
    (∀ o : Int,
      rank now candidates user config limit (some (encodeCursor o))
        = Except.ok (rankAt now candidates user config limit o)) ∧
    (∀ fuel : Nat,
      (rankPipeline now candidates user config).length ≤ fuel * limit.toNat →
      collectPages now candidates user config limit fuel none
        = toFeedItems now (rankPipeline now candidates user config)) := by
  refine ⟨?_, fun o => rank_encodeCursor now candidates user config limit o, ?_⟩
  · intro offset
    constructor
    · dsimp only [rankAt]
      simp
    · dsimp only [rankAt]
      by_cases h : offset + limit
          < ((rankPipeline now candidates user config).length : Int) <;>
        simp [h]
  · intro fuel hbound
    cases fuel with
    | zero =>
        have : rankPipeline now candidates user config = [] :=
          List.eq_nil_of_length_eq_zero (by omega)
        rw [collectPages, this]
        rfl
    | succ f =>
        have hnone : collectPages now candidates user config limit (f + 1) none
            = collectPages now candidates user config limit (f + 1)
                (some (encodeCursor 0)) := by
          rw [collectPages, collectPages, rank_none, rank_encodeCursor]
        rw [hnone]
        have hcol := collectPages_encode now candidates user config hlim
          (f + 1) 0 (by omega)
        simpa using hcol

/-- Witness for C5 at a concrete input: three candidates, limit 2,
two pages; the concatenation of the two pages is the whole ranked
sequence. -/
theorem C5_pagination_witness :
    collectPages 0 c5cands c5user c5cfg 2 2 none
      = toFeedItems 0 (rankPipeline 0 c5cands c5user c5cfg) :=
  (C5_pagination 0 c5cands c5user c5cfg 2 (by decide)).2.2 2 (by decide)

/-- One failing call from CLOSED: the count increments, the failure
time is recorded, and the breaker opens exactly on reaching the
threshold. -/
theorem call_closed_failure (cb : CircuitBreaker) (t : ℚ)
    (hstate : cb.state = CircuitState.closed) :
    (CircuitBreaker.call cb t (Except.error ()) (none : Option Unit)).breaker
      = { cb with
          failure_count := cb.failure_count + 1
          last_failure_time := some t
          state := if cb.failure_threshold ≤ cb.failure_count + 1
                   then CircuitState.opened else CircuitState.closed } := by
  have hno : ¬(cb.state = CircuitState.opened) := by
    rw [hstate]
    intro h
    cases h
  unfold CircuitBreaker.call
  rw [if_neg (by rintro ⟨h, _⟩; exact hno h)]
  rw [if_neg hno]
  unfold onFailure
  dsimp only
  rw [hstate]

/-- The failure fold: starting CLOSED, as long as the failures exactly
use up the threshold, the breaker ends OPEN with the last failure
time recorded. -/
theorem failCalls_opens :
    ∀ (times : List ℚ) (cb : CircuitBreaker),
      cb.state = CircuitState.closed →
      times ≠ [] →
      cb.failure_count + times.length = cb.failure_threshold →
      (failCalls cb times).state = CircuitState.opened ∧
      (failCalls cb times).failure_count = cb.failure_threshold ∧
      (failCalls cb times).last_failure_time = times.getLast? ∧
      (failCalls cb times).failure_threshold = cb.failure_threshold ∧
      (failCalls cb times).recovery_timeout_sec = cb.recovery_timeout_sec := by
  intro times
  induction times with
  | nil => intro cb _ hne _; exact absurd rfl hne
  | cons t ts ih =>
      intro cb hstate _ hcount
      have hstep : failCalls cb (t :: ts)
          = failCalls
              ((CircuitBreaker.call cb t (Except.error ())
                (none : Option Unit)).breaker) ts := by
        unfold failCalls
        rw [List.foldl_cons]
      rw [hstep, call_closed_failure cb t hstate]
      cases hts : ts with
      | nil =>
          subst hts
          simp only [List.length_cons, List.length_nil] at hcount
          unfold failCalls
          simp only [List.foldl_nil]
          refine ⟨?_, ?_, ?_, trivial, trivial⟩
          · show (if cb.failure_threshold ≤ cb.failure_count + 1
                then CircuitState.opened else CircuitState.closed)
                = CircuitState.opened
            rw [if_pos (by omega)]
          · show cb.failure_count + 1 = cb.failure_threshold
            omega
          · show some t = [t].getLast?
            simp
      | cons t2 ts2 =>
          rw [← hts]
          have htsne : ts ≠ [] := by rw [hts]; simp
          have hlen : 1 ≤ ts.length := by rw [hts]; simp
          simp only [List.length_cons] at hcount
          have hclosed : (if cb.failure_threshold ≤ cb.failure_count + 1
              then CircuitState.opened else CircuitState.closed)
              = CircuitState.closed := by
            rw [if_neg (by omega)]
          rw [hclosed]
          have := ih { cb with
              failure_count := cb.failure_count + 1
              last_failure_time := some t
              state := CircuitState.closed }
            rfl htsne (by show cb.failure_count + 1 + ts.length = cb.failure_threshold; omega)
          refine ⟨this.1, this.2.1, ?_, this.2.2.2.1, this.2.2.2.2⟩
          rw [this.2.2.1, hts, List.getLast?_cons_cons]

/-- C6: circuit breaker lifecycle.  Starting CLOSED with a clean
count, after `failure_threshold` consecutive failing calls the breaker
is OPEN; a further call arriving before `recovery_timeout_sec` has
elapsed since the last failure does not execute the primary (its
result is the fallback value when one is given, else
`CircuitBreakerOpenError`) and leaves the breaker unchanged; a call
arriving once the timeout has elapsed executes the primary, whose
success yields CLOSED with `failure_count = 0` and whose failure
yields OPEN again. -/
theorem C6_breaker (cb : CircuitBreaker) (times : List ℚ) (tl now : ℚ)
    (fb : Option Unit) (primary : Except Unit Unit)
    (hstate : cb.state = CircuitState.closed)
    (hcount0 : cb.failure_count = 0)
    (hlen : times.length = cb.failure_threshold)
    (hpos : 0 < cb.failure_threshold)
    (htl : times.getLast? = some tl) :
    (failCalls cb times).state = CircuitState.opened ∧
    (qsub now tl < cb.recovery_timeout_sec →
      (CircuitBreaker.call (failCalls cb times) now primary fb).executedPrimary
          = false ∧
      (CircuitBreaker.call (failCalls cb times) now primary fb).breaker
          = failCalls cb times ∧
      (CircuitBreaker.call (failCalls cb times) now primary fb).result
          = (match fb with
             | some v => CallResult.ok v
             | none => CallResult.circuitOpenError)) ∧
    (cb.recovery_timeout_sec ≤ qsub now tl →
      (CircuitBreaker.call (failCalls cb times) now primary fb).executedPrimary
          = true ∧
      (primary = Except.ok () →
        (CircuitBreaker.call (failCalls cb times) now primary fb).breaker.state
            = CircuitState.closed ∧
        (CircuitBreaker.call (failCalls cb times) now primary fb).breaker.failure_count
            = 0) ∧
      (primary = Except.error () →
        (CircuitBreaker.call (failCalls cb times) now primary fb).breaker.state
            = CircuitState.opened)) := by
  have htne : times ≠ [] := by
    intro h
    rw [h] at hlen
    simp at hlen
    omega
  obtain ⟨hopen, hfc, hlft, hth, hrt⟩ :=
    failCalls_opens times cb hstate htne (by omega)
  rw [htl] at hlft
  refine ⟨hopen, ?_, ?_⟩
  · intro hbefore
    have hreset : ¬ (shouldAttemptReset (failCalls cb times) now = true) := by
      unfold shouldAttemptReset
      rw [hlft, hrt]
      simp only [decide_eq_true_eq]
      exact not_le.mpr hbefore
    unfold CircuitBreaker.call
    rw [if_pos ⟨hopen, hreset⟩]
    cases fb with
    | some v => exact ⟨rfl, rfl, rfl⟩
    | none => exact ⟨rfl, rfl, rfl⟩
  · intro hafter
    have hreset : shouldAttemptReset (failCalls cb times) now = true := by
      unfold shouldAttemptReset
      rw [hlft, hrt]
      simp only [decide_eq_true_eq]
      exact hafter
    have hcond : ¬ ((failCalls cb times).state = CircuitState.opened
        ∧ ¬ shouldAttemptReset (failCalls cb times) now) := by
      rintro ⟨_, hno⟩
      exact hno hreset
    unfold CircuitBreaker.call
    rw [if_neg hcond, if_pos hopen]
    cases primary with
    | ok v =>
        dsimp only
        refine ⟨rfl, ?_, ?_⟩
        · intro _
          unfold onSuccess
          dsimp only
          rw [if_pos rfl]
          exact ⟨rfl, rfl⟩
        · intro h
          cases h
    | error e =>
        have hkey : (failCalls cb times).failure_threshold
            ≤ (failCalls cb times).failure_count + 1 := by omega
        refine ⟨?_, ?_, ?_⟩
        · cases fb <;> rfl
        · intro h
          cases h
        · intro _
          cases fb
          all_goals
            dsimp only
            unfold onFailure
            dsimp only
            rw [if_pos hkey]

/-- C6 witness: the concrete breaker `c6cb` (threshold 2, timeout 30)
with two failing calls at times 0 and 1, probed at time 10. -/
theorem C6_breaker_witness :
    c6cb.state = CircuitState.closed ∧ c6cb.failure_count = 0 ∧
    ([(0 : ℚ), 1].length = c6cb.failure_threshold) ∧
    0 < c6cb.failure_threshold ∧
    ([(0 : ℚ), 1].getLast? = some 1) ∧
    ((failCalls c6cb [(0 : ℚ), 1]).state = CircuitState.opened ∧
      (qsub 10 1 < c6cb.recovery_timeout_sec →
        (CircuitBreaker.call (failCalls c6cb [(0 : ℚ), 1]) 10
            (Except.ok ()) (some ())).executedPrimary = false ∧
        (CircuitBreaker.call (failCalls c6cb [(0 : ℚ), 1]) 10
            (Except.ok ()) (some ())).breaker = failCalls c6cb [(0 : ℚ), 1] ∧
        (CircuitBreaker.call (failCalls c6cb [(0 : ℚ), 1]) 10
            (Except.ok ()) (some ())).result
          = (match (some ()) with
             | some v => CallResult.ok v
             | none => CallResult.circuitOpenError)) ∧
      (c6cb.recovery_timeout_sec ≤ qsub 10 1 →
        (CircuitBreaker.call (failCalls c6cb [(0 : ℚ), 1]) 10
            (Except.ok ()) (some ())).executedPrimary = true ∧
        ((Except.ok () : Except Unit Unit) = Except.ok () →
          (CircuitBreaker.call (failCalls c6cb [(0 : ℚ), 1]) 10
              (Except.ok ()) (some ())).breaker.state = CircuitState.closed ∧
          (CircuitBreaker.call (failCalls c6cb [(0 : ℚ), 1]) 10
              (Except.ok ()) (some ())).breaker.failure_count = 0) ∧
        ((Except.ok () : Except Unit Unit) = Except.error () →
          (CircuitBreaker.call (failCalls c6cb [(0 : ℚ), 1]) 10
              (Except.ok ()) (some ())).breaker.state
            = CircuitState.opened))) :=
  ⟨rfl, rfl, rfl, by decide, rfl,
    C6_breaker c6cb [(0 : ℚ), 1] 1 10 (some ()) (Except.ok ())
      rfl rfl rfl (by decide) rfl⟩

/-- C8 counterexample: "any change of an id or of the order changes
the ETag" is false.  The ETag hashes the bare concatenation of the
ids, which is ambiguous: id sequences `["ab", "c"]` and `["a", "bc"]`
differ, yet both concatenate to `"abc"` and get the same ETag. -/
theorem C8_counterexample :
    c8itemsA.map (fun i => i.id) ≠ c8itemsB.map (fun i => i.id) ∧
    etagOf c8itemsA = etagOf c8itemsB := by
  constructor
  · decide
  · rfl

set_option maxHeartbeats 2000000 in
/-- C8 amended: the ETag is a function of the concatenated ids (so
identical id sequences give identical ETags, but so do distinct
sequences with equal concatenation); with no items no ETag is emitted
and the response is a 200 with a body; with items the ETag is
`W/"h"` with `h` the first 16 characters of the 32-hex-digit MD5 of
the concatenation; `If-None-Match` equal to the computed ETag gives a
304 with no body, and otherwise a 200 with a body carries the ETag. -/
theorem C8_amended (fr : FeedResponse) (inm : Option String) :
    (∀ items2 : List FeedItem, fr.items ≠ [] → items2 ≠ [] →
      String.join (fr.items.map (fun i => i.id))
        = String.join (items2.map (fun i => i.id)) →
      etagOf fr.items = etagOf items2) ∧
    (fr.items = [] →
      etagOf fr.items = none ∧
      (routeFeedResult fr inm).status = 200 ∧
      (routeFeedResult fr inm).etag_header = none ∧
      (routeFeedResult fr inm).has_body = true) ∧
    (fr.items ≠ [] →
      ∃ h : String, h.data.length = 16 ∧
        (∀ c ∈ h.data, c ∈ hexDigits) ∧
        h.data = ((md5Hex (utf8Encode
          (String.join (fr.items.map (fun i => i.id))).data)).data).take 16 ∧
        etagOf fr.items = some ("W/\"" ++ h ++ "\"")) ∧
    (fr.items ≠ [] → inm = etagOf fr.items →
      (routeFeedResult fr inm).status = 304 ∧
      (routeFeedResult fr inm).has_body = false) ∧
    (fr.items ≠ [] → inm ≠ etagOf fr.items →
      (routeFeedResult fr inm).status = 200 ∧
      (routeFeedResult fr inm).etag_header = etagOf fr.items ∧
      (routeFeedResult fr inm).has_body = true) := by
  refine ⟨?_, ?_, ?_, ?_, ?_⟩
  · intro items2 h1 h2 hjoin
    rw [etagOf_nonempty fr.items h1, etagOf_nonempty items2 h2, hjoin]
  · intro hempty
    have hetag : etagOf fr.items = none := by
      unfold etagOf
      rw [if_pos]
      rw [hempty]
      rfl
    have hroute := routeFeedResult_not304 fr inm (by simp [hetag])
    rw [hroute, hetag]
    exact ⟨rfl, rfl, rfl, rfl⟩
  · intro hne
    refine ⟨_, ?_, ?_, ?_, etagOf_nonempty fr.items hne⟩
    · show (((md5Hex (utf8Encode
        (String.join (fr.items.map (fun i => i.id))).data)).data).take 16).length
        = 16
      rw [List.length_take, md5Hex_length]
      decide
    · intro c hc
      exact md5Hex_mem _ c (List.mem_of_mem_take hc)
    · rfl
  · intro hne hinm
    rw [etagOf_nonempty fr.items hne] at hinm
    have hroute := routeFeedResult_304 fr inm
      ("W/\"" ++ String.mk (((md5Hex (utf8Encode
        (String.join (fr.items.map (fun i => i.id))).data)).data).take 16)
        ++ "\"")
      (etagOf_nonempty fr.items hne) (wrapped_ne_empty _) hinm
    rw [hroute]
    exact ⟨rfl, rfl⟩
  · intro hne hinm
    rw [etagOf_nonempty fr.items hne] at hinm
    have hbeq : (inm == etagOf fr.items) = false := by
      rw [etagOf_nonempty fr.items hne, beq_eq_false_iff_ne]
      intro hc
      rw [← etagOf_nonempty fr.items hne] at hc
      exact hinm (by rw [hc, etagOf_nonempty fr.items hne])
    have hroute := routeFeedResult_not304 fr inm (by rw [hbeq]; simp)
    rw [hroute]
    exact ⟨rfl, rfl, rfl⟩

/-- C9 counterexample: `set` with an explicit `ttl = 0` does NOT give
expiry `now + 0` — `if ttl` is falsy at 0, so the entry gets no
expiry at all and is still served at an arbitrarily late time, where
an entry expiring at `now + 0 = 0` would long since be gone. -/
theorem C9_counterexample :
    ((InMemoryCache.set ({ } : InMemoryCache Nat) 0 "k" 7 (some 0)).store.lookup
        "k" = some ⟨7, none⟩) ∧
    ((InMemoryCache.set ({ } : InMemoryCache Nat) 0 "k" 7 (some 0)).get
        1000000 "k").1 = some 7 := by
  constructor
  · rfl
  · rfl

/-- C9 amended: `get` returns the stored value iff the entry exists
and has not expired, where expiry is strict — at the exact instant
`now = expires_at` the value is still returned — and an expired entry
is removed; `set` stores expiry `now + ttl` for an effective TTL
(explicit, else construction default) that is non-None and non-zero,
and stores no expiry — the entry never expires — when the effective
TTL is `None` OR `0`. -/
theorem C9_amended (c : InMemoryCache V) (now : ℚ) (key : String)
    (v : V) (e : CacheEntry V) (t : ℚ) (t0 : Int) :
    (c.store.lookup key = none → c.get now key = (none, c)) ∧
    (c.store.lookup key = some e → e.expires_at = none →
      c.get now key = (some e.value, c)) ∧
    (c.store.lookup key = some e → e.expires_at = some t → now ≤ t →
      c.get now key = (some e.value, c)) ∧
    (c.store.lookup key = some e → e.expires_at = some t → t < now →
      (c.get now key).1 = none ∧
      ((c.get now key).2).store.lookup key = none) ∧
    (t0 ≠ 0 →
      (c.set now key v (some t0)).store.lookup key
        = some ⟨v, some (qadd now (mkRat t0 1))⟩) ∧
    ((c.set now key v (some 0)).store.lookup key = some ⟨v, none⟩) ∧
    (c.default_ttl = none →
      (c.set now key v none).store.lookup key = some ⟨v, none⟩) ∧
    (c.default_ttl = some t0 → t0 ≠ 0 →
      (c.set now key v none).store.lookup key
        = some ⟨v, some (qadd now (mkRat t0 1))⟩) ∧
    (c.default_ttl = some 0 →
      (c.set now key v none).store.lookup key = some ⟨v, none⟩) := by
  refine ⟨?_, ?_, ?_, ?_, ?_, ?_, ?_, ?_, ?_⟩
  · intro hl
    unfold InMemoryCache.get
    rw [hl]
  · intro hl hexp
    unfold InMemoryCache.get
    rw [hl]
    dsimp only
    rw [show e.is_expired now = false by unfold CacheEntry.is_expired; rw [hexp]]
    rfl
  · intro hl hexp hle
    unfold InMemoryCache.get
    rw [hl]
    dsimp only
    rw [show e.is_expired now = false by
      unfold CacheEntry.is_expired
      rw [hexp]
      simpa using not_lt.mpr hle]
    rfl
  · intro hl hexp hlt
    unfold InMemoryCache.get
    rw [hl]
    dsimp only
    rw [show e.is_expired now = true by
      unfold CacheEntry.is_expired
      rw [hexp]
      simpa using hlt]
    exact ⟨rfl, lookup_filter_ne key c.store⟩
  · intro h0
    unfold InMemoryCache.set
    dsimp only
    rw [if_pos h0]
    exact lookup_upsert key _ c.store
  · unfold InMemoryCache.set
    dsimp only
    rw [if_neg (by simp)]
    exact lookup_upsert key _ c.store
  · intro hd
    unfold InMemoryCache.set
    dsimp only
    rw [hd]
    exact lookup_upsert key _ c.store
  · intro hd h0
    unfold InMemoryCache.set
    dsimp only
    rw [hd]
    dsimp only
    rw [if_pos h0]
    exact lookup_upsert key _ c.store
  · intro hd
    unfold InMemoryCache.set
    dsimp only
    rw [hd]
    dsimp only
    rw [if_neg (by simp)]
    exact lookup_upsert key _ c.store

/-- C1: the breaker-fallback response is mislabeled.  With the
circuit breaker OPEN inside its recovery window, `_get_personalized_feed`
serves the popularity-sorted fallback built by
`_get_fallback_items_sync` (here non-empty, while the true ranked feed
is empty because the user watched every candidate), yet wraps it with
`is_personalized = True` and `degraded = False` — the spec requires
`is_personalized = false` and `degraded = true` for this
non-intentional fallback. -/
theorem C1_code_bug :
    getPersonalizedFeed 1 c1repo c1cb "t" "u" 2 none
      = Except.ok
          ({ items := (getFallbackItemsSync 1 c1cands 2).1
             next_cursor := none
             has_more := false
             is_personalized := true
             degraded := false }, c1cb) ∧
    (getFallbackItemsSync 1 c1cands 2).1 ≠ [] ∧
    rank 1 c1cands c1user c1cfg 2 none
      = Except.ok ([], none, false) := by
  refine ⟨?_, ?_, ?_⟩
  · decide
  · decide
  · decide

/-- C10: fallback responses are never paginated.  `_get_fallback_feed`
always produces `next_cursor = None`, `has_more = false`, and the
first `limit` fallback videos in order; the kill-switch/rollout gate,
the caught-exception path, and the empty-candidates path all return
exactly that response — the request cursor never reaches any of them,
so the same response comes back for every cursor. -/
theorem C10_fallback (now : ℚ) (fv : List VideoMetadata) (limit : Int)
    (hlim : 0 ≤ limit) (degraded : Bool) (settings : Settings)
    (flagRollout : ℚ) (repo : RepoFetch) (cb : CircuitBreaker)
    (tenant_id user_hash : String) (cursor : Option String)
    (us : Option UserSignals) (cfg : Option TenantRankingRules) :
    ((getFallbackFeed now fv limit degraded).next_cursor = none ∧
     (getFallbackFeed now fv limit degraded).has_more = false ∧
     (getFallbackFeed now fv limit degraded).items
       = (fv.take limit.toNat).map (mkFallbackItem now)) ∧
    ((if settings.ROLLOUT_PERCENTAGE ≤ ((sumOrd user_hash % 100 : Nat) : Int)
        then false
        else isPersonalizationEnabled settings flagRollout user_hash) = false →
      getFeed settings flagRollout now repo cb tenant_id user_hash limit cursor
        = (getFallbackFeed now repo.fallback_videos limit false, cb)) ∧
    ((if settings.ROLLOUT_PERCENTAGE ≤ ((sumOrd user_hash % 100 : Nat) : Int)
        then false
        else isPersonalizationEnabled settings flagRollout user_hash) = true →
      getPersonalizedFeed now repo cb tenant_id user_hash limit cursor
        = Except.error () →
      getFeed settings flagRollout now repo cb tenant_id user_hash limit cursor
        = (getFallbackFeed now repo.fallback_videos limit true, cb)) ∧
    (repo.user_signals = Except.ok us → repo.candidates = Except.ok [] →
      repo.config = Except.ok cfg →
      getPersonalizedFeed now repo cb tenant_id user_hash limit cursor
        = Except.ok (getFallbackFeed now repo.fallback_videos limit true, cb)) := by
  refine ⟨⟨rfl, rfl, ?_⟩, ?_, ?_, ?_⟩
  · show (pySlice fv 0 limit).map (mkFallbackItem now)
      = (fv.take limit.toNat).map (mkFallbackItem now)
    rw [pySlice_nonneg fv le_rfl hlim]
    simp
  · intro hgate
    unfold getFeed
    dsimp only
    rw [hgate]
    rw [if_pos (by simp)]
  · intro hgate herr
    unfold getFeed
    dsimp only
    rw [hgate]
    rw [if_neg (by simp)]
    rw [herr]
  · intro hu hc hcf
    unfold getPersonalizedFeed
    rw [hu, hc, hcf]
    dsimp only
    rw [if_pos (show ([] : List VideoMetadata).isEmpty = true from rfl)]

/-- C10 witness: the fallback shape at time 0 with three fallback
videos and limit 2. -/
theorem C10_fallback_witness :
    (getFallbackFeed 0 c5cands 2 false).next_cursor = none ∧
    (getFallbackFeed 0 c5cands 2 false).has_more = false ∧
    (getFallbackFeed 0 c5cands 2 false).items
      = (c5cands.take 2).map (mkFallbackItem 0) :=
  (C10_fallback 0 c5cands 2 (by decide) false { } 100 c1repo c6cb "t" "u"
    none none none).1

/-- C7: filter soundness.  Every item returned by `rank` corresponds
to a candidate whose id is not watched, whose tags avoid all excluded
tags, and whose maturity rating is allowed under any configured cap
(ratings outside the ladder are allowed); this covers editorial items
too, because editorial overrides reorder already-filtered scored
candidates. -/
theorem C7_filter_soundness (now : ℚ) (candidates : List VideoMetadata)
    (user : UserSignals) (config : TenantRankingRules) (limit : Int)
    (cursor : Option String) (items : List FeedItem) (nc : Option String)
    (hm : Bool)
    (hok : rank now candidates user config limit cursor
      = Except.ok (items, nc, hm))
    (item : FeedItem) (hitem : item ∈ items) :
    ∃ v, v ∈ candidates ∧ item.id = v.id ∧
      ¬ v.id ∈ user.watched_ids ∧
      (∀ t ∈ v.tags, ¬ t ∈ config.filters_exclude_tags) ∧
      (∀ m, config.filters_max_maturity = some m →
        isMaturityAllowed v.maturity_rating m = true) := by
  obtain ⟨offset, hout⟩ := rank_ok_offset hok
  have hitems : items = toFeedItems now
      (pySlice (rankPipeline now candidates user config) offset
        (offset + limit)) := by
    have := congrArg (fun t => t.1) hout
    simpa [rankAt] using this
  rw [hitems] at hitem
  unfold toFeedItems at hitem
  rcases List.mem_map.mp hitem with ⟨sv, hsv, rfl⟩
  have hsv2 := mem_rankPipeline (mem_pySlice hsv)
  unfold filterCandidates at hsv2
  rcases List.mem_filter.mp hsv2 with ⟨hcand, hpred⟩
  refine ⟨sv.video, hcand, rfl, ?_, ?_, ?_⟩
  · rcases Bool.and_eq_true_iff.mp hpred with ⟨h12, _⟩
    rcases Bool.and_eq_true_iff.mp h12 with ⟨h1, _⟩
    simpa using h1
  · rcases Bool.and_eq_true_iff.mp hpred with ⟨h12, _⟩
    rcases Bool.and_eq_true_iff.mp h12 with ⟨_, h2⟩
    simpa using h2
  · rcases Bool.and_eq_true_iff.mp hpred with ⟨_, h3⟩
    intro m hmm
    rw [hmm] at h3
    by_cases hempty : m = ""
    · subst hempty
      exact isMaturityAllowed_empty_cap _
    · simpa [hempty] using h3

/-- Witness for C7 at a concrete input: a candidate pool with one
watched video, one excluded tag, one too-mature video and one good
video; the single returned item passes all filters. -/
theorem C7_filter_soundness_witness :
    ∃ v, v ∈ c7cands ∧ (c7item.id = v.id) ∧
      ¬ v.id ∈ c7user.watched_ids ∧
      (∀ t ∈ v.tags, ¬ t ∈ c7config.filters_exclude_tags) ∧
      (∀ m, c7config.filters_max_maturity = some m →
        isMaturityAllowed v.maturity_rating m = true) := by
  exact C7_filter_soundness 0 c7cands c7user c7config 5 none
    c7items none false (by decide) c7item (by decide)

end FeedApi
